import Mathlib

/-!
Verification of the pgEdge RAG server core against its specification.

The Go source is shallowly embedded: Go strings are modelled as Lean
`String`s (byte length and character length coincide on the ASCII data the
theorems and witnesses use), Go `interface\x7b\x7d` values as the inductive
`GoValue`, Go maps as association lists in first-insertion order, fallible
functions as `Except String`, and `float64` arithmetic as exact rational
arithmetic over `ℚ`.  Where Go iterates over a map (whose iteration order
the Go runtime deliberately randomizes) the embedding takes the iteration
order as an explicit parameter constrained to be a permutation of the
entries.
-/

/-- A Go `interface\x7b\x7d` value as carried by a JSON-decoded filter:
`nil`, a string, an integer, a number, a boolean, or a list. -/
inductive GoValue where
  | gNull : GoValue
  | gStr : String → GoValue
  | gInt : Int → GoValue
  | gNum : ℚ → GoValue
  | gBool : Bool → GoValue
  | gList : List GoValue → GoValue

open GoValue

/-- Go `strings.ToUpper` restricted to ASCII (the embedding's alphabet). -/
def upperStr (s : String) : String :=
  ⟨s.data.map Char.toUpper⟩

/-- `pgx.Identifier.Sanitize` for a single part: wrap in double quotes and
double any embedded double quote. -/
def sanitizeIdent (s : String) : String :=
  "\"" ++ ⟨s.data.flatMap (fun c => if c = '"' then ['"', '"'] else [c])⟩ ++ "\""

/-- Go `strings.Join`. -/
def joinSep (sep : String) : List String → String
  | [] => ""
  | [x] => x
  | x :: rest => x ++ sep ++ joinSep sep rest

/-- Go `strings.Split(s, ".")` at the character level. -/
def splitDotGo : List Char → List (List Char)
  | [] => [[]]
  | c :: rest =>
    if c = '.' then [] :: splitDotGo rest
    else
      match splitDotGo rest with
      | [] => [[c]]
      | h :: t => (c :: h) :: t

/-- `pgx.Identifier.Sanitize` applied to `strings.Split(table, ".")`:
each dot-separated part quoted, rejoined with dots
(`parseTableIdentifier` in search.go). -/
def sanitizeTable (s : String) : String :=
  joinSep "." ((splitDotGo s.data).map (fun l => sanitizeIdent ⟨l⟩))

/-- Fuel-driven decimal rendering (structural recursion so that concrete
instances reduce in the kernel). -/
def natDigitsGo (fuel : ℕ) (n : ℕ) : List Char :=
  match fuel with
  | 0 => []
  | fuel + 1 =>
    if n < 10 then [Char.ofNat (48 + n)]
    else natDigitsGo fuel (n / 10) ++ [Char.ofNat (48 + n % 10)]

/-- Decimal digits of a natural number, most significant first
(the characters `fmt.Sprintf` with verb `%d` produces). -/
def natDigits (n : ℕ) : List Char := natDigitsGo (n + 1) n

/-- Go `fmt.Sprintf` with verb `%d` on a non-negative int. -/
def natToString (n : ℕ) : String := ⟨natDigits n⟩

/-- The operator whitelist `supportedOperators` of filter.go. -/
def supportedOperators : List String :=
  ["=", "!=", "<", ">", "<=", ">=", "LIKE", "ILIKE",
   "IN", "NOT IN", "IS NULL", "IS NOT NULL"]

/-- `ValidateOperator` of filter.go. -/
def ValidateOperator (operator : String) : Except String Unit :=
  if supportedOperators.contains (upperStr operator) then Except.ok ()
  else Except.error ("unsupported operator: " ++ operator ++
    " (allowed: =, !=, <, >, <=, >=, LIKE, ILIKE, IN, NOT IN, IS NULL, IS NOT NULL)")

/-- `ValidateValue` of filter.go (the local `op := strings.ToUpper(operator)`
is inlined). -/
def ValidateValue (operator : String) (value : GoValue) : Except String Unit :=
  if upperStr operator = "IS NULL" ∨ upperStr operator = "IS NOT NULL" then Except.ok ()
  else if upperStr operator = "IN" ∨ upperStr operator = "NOT IN" then
    match value with
    | gList v => if v.length = 0 then Except.error ("IN operator requires non-empty array") else Except.ok ()
    | _ => Except.error ("IN operator requires array value")
  else
    match value with
    | gNull => Except.error ("operator " ++ operator ++ " requires non-nil value")
    | _ => Except.ok ()

namespace config

/-- `config.FilterCondition`. -/
structure FilterCondition where
  column : String
  operator : String
  value : GoValue

/-- `config.Filter`: ordered conditions plus a logic connective. -/
structure Filter where
  conditions : List FilterCondition
  logic : String

/-- `config.ConfigFilter`: raw SQL (admin) or a structured filter. -/
structure ConfigFilter where
  rawSQL : String
  structured : Option Filter

end config

open config

/-- `buildCondition` of filter.go: one condition compiled to a clause,
its argument values, and the advanced parameter index.  The `for` loop of
the `IN` branch, which emits `fmt.Sprintf("$%d", *paramIndex)` and
increments the index once per element, is rendered by its closed form. -/
def buildCondition (cond : FilterCondition) (paramIndex : ℕ) :
    Except String (String × List GoValue × ℕ) :=
  match ValidateOperator cond.operator with
  | Except.error e => Except.error e
  | Except.ok _ =>
  match ValidateValue cond.operator cond.value with
  | Except.error e => Except.error e
  | Except.ok _ =>
  let columnName := sanitizeIdent cond.column
  let op := upperStr cond.operator
  if op = "IS NULL" ∨ op = "IS NOT NULL" then
    Except.ok (columnName ++ " " ++ op, [], paramIndex)
  else if op = "IN" ∨ op = "NOT IN" then
    match cond.value with
    | gList values =>
      let placeholders := (List.range' paramIndex values.length).map
        (fun i => "$" ++ natToString i)
      let clause := columnName ++ " " ++ op ++ " (" ++
        joinSep ", " placeholders ++ ")"
      Except.ok (clause, values, paramIndex + values.length)
    | _ => Except.error ("IN operator requires array value")
  else
    Except.ok (columnName ++ " " ++ cond.operator ++ " $" ++ natToString paramIndex,
      [cond.value], paramIndex + 1)

/-- The loop body of `buildFilterFromStruct`: compile each condition in
order, collecting clauses and arguments while threading the index. -/
def buildConditions (conds : List FilterCondition) (paramIndex : ℕ) :
    Except String (List String × List GoValue × ℕ) :=
  match conds with
  | [] => Except.ok ([], [], paramIndex)
  | c :: rest =>
    match buildCondition c paramIndex with
    | Except.error e => Except.error e
    | Except.ok (clause, clauseArgs, k) =>
      match buildConditions rest k with
      | Except.error e => Except.error e
      | Except.ok (clauses, args, k2) =>
        Except.ok (clause :: clauses, clauseArgs ++ args, k2)

/-- The local `logic` of `buildFilterFromStruct`: the filter logic,
defaulted to `AND` and upper-cased. -/
def effectiveLogic (filter : Filter) : String :=
  if filter.logic = "" then "AND" else upperStr filter.logic

/-- `buildFilterFromStruct` of filter.go. -/
def buildFilterFromStruct (filter : Filter) (paramIndex : ℕ) :
    Except String (String × List GoValue × ℕ) :=
  if filter.conditions.length = 0 then Except.ok ("", [], paramIndex)
  else
    if effectiveLogic filter ≠ "AND" ∧ effectiveLogic filter ≠ "OR" then
      Except.error ("invalid logic operator: " ++ effectiveLogic filter ++ " (must be AND or OR)")
    else
      match buildConditions filter.conditions paramIndex with
      | Except.error e => Except.error e
      | Except.ok (clauses, args, k) =>
        Except.ok (joinSep (" " ++ effectiveLogic filter ++ " ") clauses, args, k)

/-- The config-filter half of `buildFilterClause`: the accumulated
condition fragments, arguments, and next parameter index. -/
def buildFilterClauseConfig (configFilter : Option ConfigFilter)
    (startParamIndex : ℕ) : Except String (List String × List GoValue × ℕ) :=
  match configFilter with
  | none => Except.ok ([], [], startParamIndex)
  | some cf =>
    if cf.rawSQL ≠ "" then
      Except.ok (["(" ++ cf.rawSQL ++ ")"], [], startParamIndex)
    else
      match cf.structured with
      | none => Except.ok ([], [], startParamIndex)
      | some f =>
        match buildFilterFromStruct f startParamIndex with
        | Except.error e => Except.error ("config filter error: " ++ e)
        | Except.ok (clause, clauseArgs, k) =>
          if clause ≠ "" then Except.ok (["(" ++ clause ++ ")"], clauseArgs, k)
          else Except.ok ([], [], k)

/-- The request-filter half of `buildFilterClause`. -/
def buildFilterClauseRequest (requestFilter : Option Filter) (k1 : ℕ) :
    Except String (List String × List GoValue × ℕ) :=
  match requestFilter with
  | none => Except.ok ([], [], k1)
  | some f =>
    match buildFilterFromStruct f k1 with
    | Except.error e => Except.error ("request filter error: " ++ e)
    | Except.ok (clause, clauseArgs, k) =>
      if clause ≠ "" then Except.ok (["(" ++ clause ++ ")"], clauseArgs, k)
      else Except.ok ([], [], k)

/-- `buildFilterClause` of filter.go: combine the config-level filter and
the request-level filter into a `WHERE` clause and an argument vector. -/
def buildFilterClause (configFilter : Option ConfigFilter)
    (requestFilter : Option Filter) (startParamIndex : ℕ) :
    Except String (String × List GoValue) :=
  match buildFilterClauseConfig configFilter startParamIndex with
  | Except.error e => Except.error e
  | Except.ok (conds1, args1, k1) =>
    match buildFilterClauseRequest requestFilter k1 with
    | Except.error e => Except.error e
    | Except.ok (conds2, args2, _) =>
      let conditions := conds1 ++ conds2
      let args := args1 ++ args2
      if conditions.length = 0 then Except.ok ("", [])
      else Except.ok (" WHERE " ++ joinSep " AND " conditions, args)

/-!
A scanner that extracts the positional placeholders `$k` from an SQL text,
in textual order.  It is the observer through which the parameter-numbering
property is stated: a placeholder is a `$` followed by a maximal run of
decimal digits.
-/

/-- Scanner state: emitted placeholder indices so far, and the capture
(`none` = idle, `some none` = just saw `$`, `some (some v)` = inside the
digit run of a placeholder with value `v` so far). -/
def scanStep (st : List ℕ × Option (Option ℕ)) (c : Char) :
    List ℕ × Option (Option ℕ) :=
  if c = '$' then
    match st with
    | (e, some (some v)) => (e ++ [v], some none)
    | (e, _) => (e, some none)
  else if c.isDigit then
    match st with
    | (e, some none) => (e, some (some (c.toNat - 48)))
    | (e, some (some v)) => (e, some (some (10 * v + (c.toNat - 48))))
    | (e, none) => (e, none)
  else
    match st with
    | (e, some (some v)) => (e ++ [v], none)
    | (e, _) => (e, none)

/-- Close the scanner state at end of text. -/
def scanFlush (st : List ℕ × Option (Option ℕ)) : List ℕ :=
  match st with
  | (e, some (some v)) => e ++ [v]
  | (e, _) => e

/-- All placeholder indices occurring in an SQL text, in textual order. -/
def scanPlaceholders (s : String) : List ℕ :=
  scanFlush (s.data.foldl scanStep ([], none))

/-- Decimal value accumulated over a digit run, continuing from `v`. -/
def parseAcc (v : ℕ) (ds : List Char) : ℕ :=
  ds.foldl (fun a c => 10 * a + (c.toNat - 48)) v

/-- A continuation that cannot extend a placeholder: empty, or starting
with a character that is neither `$` nor a digit. -/
def goodCont (b : List Char) : Prop :=
  ∀ c, b.head? = some c → c ≠ '$' ∧ c.isDigit = false

/-- Scan of a character list continuing from emitted list `e`, idle. -/
def scanOut (e : List ℕ) (l : List Char) : List ℕ :=
  scanFlush (l.foldl scanStep (e, none))

/-- The columns of a structured filter mention no `$` character.  This is
an artifact of observing placeholders through the SQL text: a `$` inside a
quoted identifier is data, not a placeholder, but the textual scanner
cannot tell them apart. -/
def cleanFilter (f : Filter) : Prop :=
  ∀ c ∈ f.conditions, ∀ x ∈ c.column.data, x ≠ '$'

/-- A config filter that is absent or structured (no raw SQL), with
`$`-free column names. -/
def cleanStructuredConfig : Option ConfigFilter → Prop
  | none => True
  | some cf => cf.rawSQL = "" ∧ ∀ f, cf.structured = some f → cleanFilter f

/-- A request filter that is absent or has `$`-free column names. -/
def cleanRequest : Option Filter → Prop
  | none => True
  | some f => cleanFilter f

/-- `config.TableSource`. -/
structure TableSource where
  table : String
  textColumn : String
  vectorColumn : String
  idColumn : String
  filter : Option ConfigFilter

/-- The query and argument assembly of `Pool.VectorSearch` (search.go):
the filter clause is compiled with start index 3, the query text embeds the
sanitized identifiers and the clause, and the argument vector is the
formatted embedding, the `LIMIT` value, then the filter arguments.
`fmtEmb` stands for `formatVector(embedding)`, whose `%g` float formatting
is outside the rational model. -/
def vectorSearchQuery (fmtEmb : String) (table : TableSource) (topN : Int)
    (filter : Option Filter) : Except String (String × List GoValue) :=
  match buildFilterClause table.filter filter 3 with
  | Except.error e => Except.error ("invalid filter: " ++ e)
  | Except.ok (filterClause, filterArgs) =>
    Except.ok ("\n\t\tSELECT\n\t\t\t" ++ sanitizeIdent table.textColumn ++
      " AS content,\n\t\t\t1 - (" ++ sanitizeIdent table.vectorColumn ++
      " <=> $1::vector) AS score\n\t\tFROM " ++ sanitizeTable table.table ++
      filterClause ++ "\n\t\tORDER BY " ++ sanitizeIdent table.vectorColumn ++
      " <=> $1::vector\n\t\tLIMIT $2",
      gStr fmtEmb :: gInt topN :: filterArgs)

/-- Erase the payload of a condition value, keeping only what the compiler
inspects: nullness, list-ness and list length.  Two filters "differ only in
their condition values" exactly when their blanked forms coincide. -/
def blankValue : GoValue → GoValue
  | gNull => gNull
  | gList l => gList (l.map (fun _ => gNull))
  | _ => gStr ""

/-- Blank the value of one condition. -/
def blankCondition (c : FilterCondition) : FilterCondition :=
  ⟨c.column, c.operator, blankValue c.value⟩

/-- Blank every condition value of a filter. -/
def blankFilter (f : Filter) : Filter :=
  ⟨f.conditions.map blankCondition, f.logic⟩

/-- Blank an optional request filter. -/
def blankOptFilter : Option Filter → Option Filter
  | none => none
  | some f => some (blankFilter f)

/-- Blank the structured part of an optional config filter. -/
def blankOptConfig : Option ConfigFilter → Option ConfigFilter
  | none => none
  | some cf => some ⟨cf.rawSQL, (cf.structured.map blankFilter)⟩

/-- Specification-side reading of the claim "each value appears only in the
argument vector": the values a condition contributes, in order. -/
def condValues (c : FilterCondition) : List GoValue :=
  if upperStr c.operator = "IS NULL" ∨ upperStr c.operator = "IS NOT NULL" then []
  else if upperStr c.operator = "IN" ∨ upperStr c.operator = "NOT IN" then
    match c.value with
    | gList l => l
    | v => [v]
  else [c.value]

/-- The values of a whole structured filter, in condition order. -/
def filterValues (f : Filter) : List GoValue :=
  f.conditions.flatMap condValues

/-- The values contributed by the optional config filter (raw SQL
contributes none). -/
def optConfigValues : Option ConfigFilter → List GoValue
  | none => []
  | some cf =>
    if cf.rawSQL ≠ "" then []
    else
      match cf.structured with
      | none => []
      | some f => filterValues f

/-- The values contributed by the optional request filter. -/
def optFilterValues : Option Filter → List GoValue
  | none => []
  | some f => filterValues f

/-- Insert-or-overwrite into an association list (a Go `map` write,
preserving first-insertion order of keys). -/
def assocSet {α : Type} (m : List (String × α)) (k : String) (v : α) :
    List (String × α) :=
  match m with
  | [] => [(k, v)]
  | (k0, v0) :: rest =>
    if k0 = k then (k, v) :: rest else (k0, v0) :: assocSet rest k v

/-- Lookup in an association list (a Go `map` read). -/
def assocGet {α : Type} (m : List (String × α)) (k : String) : Option α :=
  match m with
  | [] => none
  | (k0, v0) :: rest => if k0 = k then some v0 else assocGet rest k

/-- `Pool.FetchDocumentsByIDs` (search.go), with the database abstracted
as an oracle from (query, ids) to rows and the issued queries logged in
the second component of the result. -/
def fetchDocumentsByIDs
    (db : String → List String → Except String (List (String × String)))
    (table : TableSource) (ids : List String) :
    Except String (List (String × String) × List String) :=
  if ids.length = 0 then Except.ok ([], [])
  else if table.idColumn = "" then Except.ok ([], [])
  else
    let query := "\n\t\tSELECT\n\t\t\t" ++ sanitizeIdent table.idColumn ++
      "::text AS id,\n\t\t\t" ++ sanitizeIdent table.textColumn ++
      " AS content\n\t\tFROM " ++ sanitizeTable table.table ++
      "\n\t\tWHERE " ++ sanitizeIdent table.idColumn ++ "::text = ANY($1::text[])"
    match db query ids with
    | Except.error e => Except.error ("failed to fetch documents: " ++ e)
    | Except.ok rows =>
      Except.ok (rows.foldl (fun docs r => assocSet docs r.1 r.2) [], [query])

/-- `database.SearchResult` (search.go); the float64 score is modelled as
an exact rational. -/
structure SearchResult where
  id : String
  content : String
  score : ℚ

/-- `llm.ContextDocument`. -/
structure ContextDocument where
  content : String
  score : ℚ

/-- Does the text start with `". "`? -/
def startsWithDS : List Char → Bool
  | '.' :: ' ' :: _ => true
  | _ => false

/-- Go `strings.LastIndex(s, ". ")`: the last index at which `". "`
occurs, `-1` when it does not occur. -/
def lastIndexDS (l : List Char) : ℤ :=
  match ((List.range l.length).filter (fun i => startsWithDS (l.drop i))).max? with
  | some i => (i : ℤ)
  | none => -1

/-- The tokens the orchestrator charges for a document:
`len(content) / 4` in Go integer division. -/
def estTokens (r : SearchResult) : ℕ := r.content.length / 4

/-- The loop of `Orchestrator.buildContext` (orchestrator.go), with
`totalTokens` made explicit.  The token budget is a natural number (the
orchestrator always runs with a positive budget); in the truncation branch
`remaining` is natural subtraction, which agrees with Go's int subtraction
whenever `totalTokens ≤ tokenBudget` — an invariant of the loop — and
otherwise makes the `remaining > 100` guard false exactly as in Go. -/
def buildContextGo (tokenBudget : ℕ) : ℕ → List SearchResult → List ContextDocument
  | _, [] => []
  | totalTokens, r :: rest =>
    if totalTokens + estTokens r > tokenBudget then
      let remaining := tokenBudget - totalTokens
      if remaining > 100 then
        let truncated := r.content.data.take (min r.content.length (remaining * 4))
        let idx := lastIndexDS truncated
        let truncated2 := if idx > 0 then truncated.take (idx.toNat + 1) else truncated
        [⟨(⟨truncated2⟩ : String) ++ "...", r.score⟩]
      else []
    else ⟨r.content, r.score⟩ :: buildContextGo tokenBudget (totalTokens + estTokens r) rest

/-- `Orchestrator.buildContext`. -/
def buildContext (tokenBudget : ℕ) (results : List SearchResult) : List ContextDocument :=
  buildContextGo tokenBudget 0 results

/-- The truncated copy of the next document, as the amended claim words
it: cut to `remaining·4` characters, cut at the last `". "` occurring at a
positive offset within that prefix (inclusive of the period), append
`"..."`. -/
def truncSpec (remaining : ℕ) (r : SearchResult) : ContextDocument :=
  let pfx := r.content.data.take (min r.content.length (remaining * 4))
  let cut := if lastIndexDS pfx > 0 then pfx.take ((lastIndexDS pfx).toNat + 1) else pfx
  ⟨(⟨cut⟩ : String) ++ "...", r.score⟩

/-- The floor token estimate of a built context document. -/
def docTokens (d : ContextDocument) : ℕ := d.content.length / 4

/-- The ceiling token estimate the original claim uses. -/
def docTokensCeil (d : ContextDocument) : ℕ := (d.content.length + 3) / 4

/-- The untruncated context document of a search result. -/
def toContextDoc (r : SearchResult) : ContextDocument := ⟨r.content, r.score⟩

/-- The subset of `config.Pipeline` the orchestrator reads: the name, the
custom system prompt, and the table sources (`ColumnPairs`). -/
structure Pipeline where
  name : String
  systemPrompt : String
  columnPairs : List TableSource

/-- The constant string returned by `Orchestrator.buildSystemPrompt`
(orchestrator.go lines 362-367), a Go raw-string literal with newlines. -/
def defaultRAGPrompt : String :=
  "You are a helpful assistant that answers questions based on the provided context.\nAnswer the question using only the information from the context.\nIf the context doesn\x27t contain enough information to answer, say so.\nBe concise and accurate in your responses."

/-- `Orchestrator.buildSystemPrompt`: the method has access to the
pipeline configuration `o.cfg` but returns the constant prompt. -/
def buildSystemPrompt (_cfg : Pipeline) : String := defaultRAGPrompt

/-- `DefaultStopWords` of the tokenizer (bm25 package). -/
def defaultStopWords : List String :=
  ["a", "an", "and", "are", "as", "at", "be", "by", "for", "from",
   "has", "he", "in", "is", "it", "its", "of", "on", "or", "that",
   "the", "to", "was", "were", "will", "with", "this", "but", "they",
   "have", "had", "what", "when", "where", "who", "which", "why", "how",
   "all", "each", "every", "both", "few", "more", "most", "other",
   "some", "such", "no", "not", "only", "same", "so", "than", "too",
   "very", "can", "just", "should", "now", "i", "you", "we", "me",
   "my", "your", "our", "their", "him", "her"]

/-- `Tokenizer.isValidToken`: drop tokens shorter than 2 and stop words. -/
def isValidToken (stopWords : List String) (token : String) : Bool :=
  if token.length < 2 then false
  else if stopWords.contains token then false
  else true

/-- The rune loop of `Tokenizer.Tokenize`: accumulate maximal runs of
letters or digits (ASCII model of `unicode.IsLetter`/`IsDigit`), emitting
each finished run that passes `isValidToken`. -/
def tokenizeAux (stopWords : List String) (cur : List Char) :
    List Char → List String
  | [] =>
    if cur.length > 0 then
      if isValidToken stopWords ⟨cur⟩ then [⟨cur⟩] else []
    else []
  | c :: rest =>
    if c.isAlpha ∨ c.isDigit then tokenizeAux stopWords (cur ++ [c]) rest
    else if cur.length > 0 then
      (if isValidToken stopWords ⟨cur⟩ then [⟨cur⟩] else []) ++
        tokenizeAux stopWords [] rest
    else tokenizeAux stopWords [] rest

/-- `Tokenizer.Tokenize` with the default tokenizer (lowercase true,
default stop words): lower-case, then split into alphanumeric runs. -/
def tokenize (text : String) : List String :=
  tokenizeAux defaultStopWords [] (text.data.map Char.toLower)

/-- `Tokenizer.TokenFrequencies`: token → count, as an association list
in first-occurrence order. -/
def tokenFrequencies (text : String) : List (String × ℕ) :=
  (tokenize text).foldl
    (fun freqs token => assocSet freqs token ((assocGet freqs token).getD 0 + 1)) []

/-- The BM25 scorer state (`bm25.BM25`); `float64` fields are rationals. -/
structure BM25 where
  k1 : ℚ
  b : ℚ
  avgDL : ℚ
  docCount : ℕ

/-- `BM25.IDF`, parameterized by the natural-logarithm stand-in `lg`
(`math.Log` is a float transcendental outside the rational model). -/
def IDF (lg : ℚ → ℚ) (bm : BM25) (docFreq : ℕ) : ℚ :=
  if bm.docCount = 0 ∨ docFreq = 0 then 0
  else lg (1 + ((bm.docCount : ℚ) - (docFreq : ℚ) + 1/2) / ((docFreq : ℚ) + 1/2))

/-- `BM25.Score` for one term.  In `ℚ`, division by zero is zero where Go
would produce NaN; that case requires `tf > 0` with an all-empty corpus
and is unreachable from the index operations. -/
def bmScore (lg : ℚ → ℚ) (bm : BM25) (tf docFreq docLen : ℕ) : ℚ :=
  if tf = 0 ∨ docFreq = 0 ∨ bm.docCount = 0 then 0
  else
    let idf := IDF lg bm docFreq
    let lengthNorm := 1 - bm.b + bm.b * ((docLen : ℚ) / bm.avgDL)
    let tfScore := ((tf : ℚ) * (bm.k1 + 1)) / ((tf : ℚ) + bm.k1 * lengthNorm)
    idf * tfScore

/-- `BM25.ScoreDocument`: sum the per-term scores over the query terms
(rational addition is commutative, so the Go map iteration order over the
query terms does not affect the sum). -/
def scoreDocument (lg : ℚ → ℚ) (bm : BM25) (queryTerms docTermFreqs docFreqs :
    List (String × ℕ)) (docLen : ℕ) : ℚ :=
  queryTerms.foldl
    (fun score p =>
      score + bmScore lg bm ((assocGet docTermFreqs p.1).getD 0)
        ((assocGet docFreqs p.1).getD 0) docLen) 0

/-- An indexed document (`bm25.Document`). -/
structure BMDoc where
  id : String
  content : String
  length : ℕ
  termFreqs : List (String × ℕ)
deriving DecidableEq

/-- The in-memory BM25 index (`bm25.Index`); both Go maps are association
lists in first-insertion order. -/
structure Index where
  docs : List (String × BMDoc)
  docFreqs : List (String × ℕ)
  totalDocs : ℕ
  totalLen : ℕ

/-- `NewIndex` (with the default scorer parameters `k1 = 1.2`,
`b = 0.75`). -/
def NewIndex : Index := ⟨[], [], 0, 0⟩

/-- `Index.AddDocument`. -/
def addDocument (idx : Index) (id content : String) : Index :=
  let termFreqs := tokenFrequencies content
  let docLen := (termFreqs.map Prod.snd).sum
  let doc : BMDoc := ⟨id, content, docLen, termFreqs⟩
  { docs := assocSet idx.docs id doc,
    docFreqs := termFreqs.foldl
      (fun m p => assocSet m p.1 ((assocGet m p.1).getD 0 + 1)) idx.docFreqs,
    totalDocs := idx.totalDocs + 1,
    totalLen := idx.totalLen + docLen }

/-- The scorer state at search time: `updateScorerStats` maintains
`docCount = totalDocs` and `avgDL = totalLen / totalDocs` after every
add, which is the state `Search` reads. -/
def bmParams (idx : Index) : BM25 :=
  ⟨6/5, 3/4, if idx.totalDocs > 0 then (idx.totalLen : ℚ) / (idx.totalDocs : ℚ) else 0,
   idx.totalDocs⟩

/-- The BM25 score `Search` computes for one indexed document. -/
def scoreOf (lg : ℚ → ℚ) (idx : Index) (query : String) (p : String × BMDoc) : ℚ :=
  scoreDocument lg (bmParams idx) (tokenFrequencies query) p.2.termFreqs
    idx.docFreqs p.2.length

/-- The search result built from one indexed document. -/
def mkResult (lg : ℚ → ℚ) (idx : Index) (query : String) (p : String × BMDoc) :
    SearchResult :=
  ⟨p.1, p.2.content, scoreOf lg idx query p⟩

/-- `Index.Search`, with the Go map iteration over `idx.docs` exposed as
the explicit enumeration `order` (Go randomizes it; any permutation of
the entries is a possible enumeration) and `sort.Slice` — not a stable
sort — modelled as a sort applied to that enumeration: together they
realize exactly the score-descending orders the Go code can emit. -/
def searchOrdered (lg : ℚ → ℚ) (idx : Index) (query : String) (topN : ℕ)
    (order : List (String × BMDoc)) : List SearchResult :=
  if idx.totalDocs = 0 then []
  else if (tokenFrequencies query).length = 0 then []
  else
    let scored := (order.filter (fun p => decide (0 < scoreOf lg idx query p))).map
      (mkResult lg idx query)
    let sorted := scored.insertionSort (fun a b => b.score ≤ a.score)
    sorted.take topN

/-- `database.DefaultRRFConstant` (rrf.go). -/
def DefaultRRFConstant : ℚ := 60

/-- `database.RRFResult`; the `float64` score is a rational. -/
structure RRFResult where
  id : String
  content : String
  score : ℚ
  vecRank : ℕ
  bm25Rank : ℕ

/-- The fusion key of one search result: `key := r.Content; if r.ID != ""
{ key = r.ID }` in both accumulation loops. -/
def rrfKey (r : SearchResult) : String :=
  if r.id = "" then r.content else r.id

/-- The key under which an accumulated `RRFResult` is stored, recomputed
from its fields (insertions copy `ID` and `Content` from the occurrence
that created the entry). -/
def entryKey (e : RRFResult) : String :=
  if e.id = "" then e.content else e.id

/-- One iteration of a `ReciprocalRankFusion` accumulation loop.  The two
loops are structurally identical except for which rank field they write;
`isVec` selects the vector loop (writes `VecRank`) or the BM25 loop
(writes `BM25Rank`). -/
def rrfStep (isVec : Bool) (k : ℚ) (m : List (String × RRFResult)) (rank : ℕ)
    (r : SearchResult) : List (String × RRFResult) :=
  match assocGet m (rrfKey r) with
  | some ex =>
    assocSet m (rrfKey r)
      ⟨ex.id, ex.content, ex.score + 1 / (k + (rank : ℚ)),
       if isVec then rank else ex.vecRank,
       if isVec then ex.bm25Rank else rank⟩
  | none =>
    assocSet m (rrfKey r)
      ⟨r.id, r.content, 1 / (k + (rank : ℚ)),
       if isVec then rank else 0,
       if isVec then 0 else rank⟩

/-- One accumulation loop of `ReciprocalRankFusion`
(`for i, r := range ...`), with the 1-indexed `rank = i + 1` carried as
`startRank`. -/
def rrfProcess (isVec : Bool) (k : ℚ) (m : List (String × RRFResult))
    (rs : List SearchResult) (startRank : ℕ) : List (String × RRFResult) :=
  match rs with
  | [] => m
  | r :: rest => rrfProcess isVec k (rrfStep isVec k m startRank r) rest (startRank + 1)

/-- The constant actually used: `if k <= 0 { k = DefaultRRFConstant }`. -/
def effectiveK (k : ℚ) : ℚ := if k ≤ 0 then DefaultRRFConstant else k

/-- The fully accumulated `resultMap` of `ReciprocalRankFusion`, as an
association list in first-insertion order (a Go map holds the same
entries; only its later iteration order is nondeterministic). -/
def rrfMap (vec bm : List SearchResult) (k : ℚ) : List (String × RRFResult) :=
  rrfProcess false (effectiveK k) (rrfProcess true (effectiveK k) [] vec 1) bm 1

/-- `ReciprocalRankFusion` after accumulation: the Go map iteration that
builds `results` is exposed as the explicit enumeration `order` (any
permutation of the accumulated entries), and `sort.Slice` — not a stable
sort — is modelled as a sort applied to that enumeration: together they
realize exactly the score-descending orders the Go code can emit. -/
def reciprocalRankFusionOrdered (order : List (String × RRFResult)) : List RRFResult :=
  (order.map Prod.snd).insertionSort (fun a b => b.score ≤ a.score)

/-- `HybridSearch`: fuse with `DefaultRRFConstant` (an `order` enumerating
`rrfMap vec bm DefaultRRFConstant`), truncate to `topN`, and convert back
to `SearchResult`. -/
def hybridSearchOrdered (topN : ℕ) (order : List (String × RRFResult)) :
    List SearchResult :=
  ((reciprocalRankFusionOrdered order).take topN).map (fun r => ⟨r.id, r.content, r.score⟩)

/-- The contribution of one ranked list to a key, per the spec:
`Σ 1/(k + rank)` over the 1-indexed ranks at which the key occurs. -/
def rankScores (k : ℚ) (rs : List SearchResult) (startRank : ℕ) (key : String) : ℚ :=
  match rs with
  | [] => 0
  | r :: rest =>
    (if rrfKey r = key then 1 / (k + (startRank : ℚ)) else 0) +
      rankScores k rest (startRank + 1) key

/-- The RRF score the spec assigns to a key: the accumulated
`Σ 1/(k + rank_i)` over both lists. -/
def specRRFScore (k : ℚ) (vec bm : List SearchResult) (key : String) : ℚ :=
  rankScores k vec 1 key + rankScores k bm 1 key

/-! ### The HTTP handlers (server.go) and the orchestrator `Execute`
(orchestrator.go), over oracle environments -/

/-- `pipeline.Message` and `llm.Message` (both are `\x7bRole, Content\x7d`
records; the orchestrator copies one into the other fieldwise). -/
structure GoMessage where
  role : String
  content : String

/-- `pipeline.QueryRequest`.  The snapshot's `types.go` omits the
`Filter` field, but `Execute` reads `req.Filter` as a `*config.Filter`
(orchestrator.go lines 98 and 108); it is included as used there. -/
structure QueryRequest where
  query : String
  stream : Bool
  topN : ℤ
  includeSources : Bool
  messages : List GoMessage
  filter : Option Filter

/-- `llm.CompletionRequest`, the fields the orchestrator populates. -/
structure CompletionRequest where
  systemPrompt : String
  messages : List GoMessage
  temperature : ℚ
  context : List ContextDocument

/-- `pipeline.StreamEvent`, the fields the streaming handler writes. -/
structure StreamEvent where
  type : String
  content : String
  error : String
deriving DecidableEq

/-- `Index.AddDocuments` (bm25): add every fetched row.  The Go map of
rows is enumerated here in the insertion order of the fetched list. -/
def addDocuments (idx : Index) (docs : List (String × String)) : Index :=
  docs.foldl (fun ix p => addDocument ix p.1 p.2) idx

/-- The I/O surface of one `Execute` run, as oracles: the embedding
provider (the formatted embedding it yields, or its error), the rows the
database answers to the vector query and to the BM25 fetch of each column
pair (indexed by loop position), and the completion provider. -/
structure ExecEnv where
  embed : Except String String
  vecRows : ℕ → List SearchResult
  fetchRows : ℕ → Except String (List (String × String))
  complete : CompletionRequest → Except String (String × ℕ)

/-- `Pool.VectorSearch` as observed by the orchestrator: the query is
assembled by `vectorSearchQuery` (filter compiled at start index 3); a
compile failure is the returned error, and the row set of a well-formed
query is the oracle's. -/
def vectorSearchExec (env : ExecEnv) (fmtEmb : String) (i : ℕ)
    (pair : TableSource) (limit : ℤ) (filter : Option Filter) :
    Except String (List SearchResult) :=
  match vectorSearchQuery fmtEmb pair limit filter with
  | Except.error e => Except.error e
  | Except.ok _ => Except.ok (env.vecRows i)

/-- `Pool.FetchDocuments` as observed by the orchestrator: the filter
clause is compiled at start index 1; a compile failure is returned as
`invalid filter: ...`, and the database outcome is the oracle's. -/
def fetchDocumentsExec (env : ExecEnv) (i : ℕ) (pair : TableSource)
    (filter : Option Filter) : Except String (List (String × String)) :=
  match buildFilterClause pair.filter filter 1 with
  | Except.error e => Except.error ("invalid filter: " ++ e)
  | Except.ok _ => env.fetchRows i

/-- The body of the column-pair loop of `Execute` (orchestrator.go lines
88-139): a vector-search failure skips the pair entirely (warn and
continue, lines 98-105); a BM25 fetch failure keeps just the vector
results; otherwise the pair contributes the `HybridSearch` fusion of the
vector results with a BM25 search over a freshly indexed corpus (the map
enumerations of the BM25 index and of the fusion map taken in insertion
order). -/
def pairResults (env : ExecEnv) (fmtEmb : String) (req : QueryRequest)
    (topN : ℤ) (i : ℕ) (pair : TableSource) : List SearchResult :=
  match vectorSearchExec env fmtEmb i pair (topN * 2) req.filter with
  | Except.error _ => []
  | Except.ok vectorResults =>
    match fetchDocumentsExec env i pair req.filter with
    | Except.error _ => vectorResults
    | Except.ok docs =>
      let idx := addDocuments NewIndex docs
      let bm25SearchResults := (searchOrdered id idx req.query (topN * 2).toNat
        idx.docs).map (fun r => (⟨r.id, r.content, r.score⟩ : SearchResult))
      hybridSearchOrdered topN.toNat
        (rrfMap vectorResults bm25SearchResults DefaultRRFConstant)

/-- The column-pair loop of `Execute`, accumulating `allResults`. -/
def collectResults (env : ExecEnv) (fmtEmb : String) (req : QueryRequest)
    (topN : ℤ) : ℕ → List TableSource → List SearchResult
  | _, [] => []
  | i, pair :: rest =>
    pairResults env fmtEmb req topN i pair ++
      collectResults env fmtEmb req topN (i + 1) rest

/-- The loop of `deduplicateResults`: `count` is `len(unique)` so far.
The first result of each key (content, overridden by a non-empty id — the
same keying as `rrfKey`) is kept, appended before the `len(unique) >=
topN` break is checked. -/
def dedupLoop (topN : ℤ) : List SearchResult → List String → ℤ → List SearchResult
  | [], _, _ => []
  | r :: rest, seen, count =>
    if seen.contains (rrfKey r) then dedupLoop topN rest seen count
    else if count + 1 ≥ topN then [r]
    else r :: dedupLoop topN rest (rrfKey r :: seen) (count + 1)

/-- `Orchestrator.deduplicateResults`. -/
def deduplicateResults (results : List SearchResult) (topN : ℤ) :
    List SearchResult :=
  dedupLoop topN results [] 0

/-- `Orchestrator.Execute` over an oracle environment: the request `topN`
override, the embedding step, the column-pair retrieval loop,
deduplication, the empty-result error, context assembly within the token
budget, and the completion call (its answer and token usage).  The
`Sources` assembly of the response is outside this model. -/
def executeExec (env : ExecEnv) (pipe : Pipeline) (defTopN : ℤ)
    (tokenBudget : ℕ) (req : QueryRequest) : Except String (String × ℕ) :=
  let topN := if req.topN > 0 then req.topN else defTopN
  match env.embed with
  | Except.error e => Except.error ("failed to generate embedding: " ++ e)
  | Except.ok fmtEmb =>
    let allResults := collectResults env fmtEmb req topN 0 pipe.columnPairs
    let results := deduplicateResults allResults topN
    if results.length = 0 then Except.error ("no documents found for query")
    else
      let contextDocs := buildContext tokenBudget results
      let messages := req.messages ++ [⟨"user", req.query⟩]
      match env.complete ⟨buildSystemPrompt pipe, messages, 7/10, contextDocs⟩ with
      | Except.error e => Except.error ("failed to generate completion: " ++ e)
      | Except.ok resp => Except.ok resp

/-- The observable outcome of one handler run: an error response (HTTP
status and error code), a JSON success payload, or the hand-off to the
streaming path. -/
inductive HandlerResp where
  | respError (status : ℕ) (code : String)
  | respOK (answer : String) (tokensUsed : ℕ)
  | streaming
deriving DecidableEq

/-- `Server.handlePipeline`: method check, name check, pipeline lookup
(which responds 404 before the body is decoded), body decode (`decoded =
none` is a malformed body), empty-query check, stream dispatch, and the
execution error mapping to 500 `EXECUTION_ERROR`. -/
def handlePipeline (method name : String) (registry : List String)
    (decoded : Option QueryRequest)
    (exec : QueryRequest → Except String (String × ℕ)) : HandlerResp :=
  if method ≠ "POST" then HandlerResp.respError 405 "METHOD_NOT_ALLOWED"
  else if name = "" then HandlerResp.respError 400 "INVALID_REQUEST"
  else if ¬ registry.contains name then
    HandlerResp.respError 404 "PIPELINE_NOT_FOUND"
  else
    match decoded with
    | none => HandlerResp.respError 400 "INVALID_REQUEST"
    | some req =>
      if req.query = "" then HandlerResp.respError 400 "INVALID_REQUEST"
      else if req.stream then HandlerResp.streaming
      else
        match exec req with
        | Except.error _ => HandlerResp.respError 500 "EXECUTION_ERROR"
        | Except.ok resp => HandlerResp.respOK resp.1 resp.2

/-- `sendSSE`: one wire frame, `"data: " ++ json ++ "\n\n"`, with the
JSON marshalling abstracted as `marshal` (Go's `json.Marshal` cannot fail
on `StreamEvent`). -/
def sendSSE (marshal : StreamEvent → String) (ev : StreamEvent) : String :=
  "data: " ++ marshal ev ++ "\n\n"

/-- The event sequence `handleStreamingQuery` emits for a stream that
runs to channel close (no client disconnect): one `chunk` event per
received chunk; then, when the error channel delivered a provider error,
one `error` event; then always a final `done` event. -/
def streamEvents (chunks : List String) (errOpt : Option String) :
    List StreamEvent :=
  chunks.map (fun c => ⟨"chunk", c, ""⟩) ++
    (match errOpt with
     | some e => [⟨"error", "", e⟩]
     | none => []) ++
    [⟨"done", "", ""⟩]

/-- The wire output of `handleStreamingQuery`: every event framed by
`sendSSE`. -/
def streamWire (marshal : StreamEvent → String) (chunks : List String)
    (errOpt : Option String) : List String :=
  (streamEvents chunks errOpt).map (sendSSE marshal)

/-- A filter condition rejected by validation: an operator outside the
whitelist, or a value invalid for its operator. -/
def invalidCondition (c : FilterCondition) : Prop :=
  (∃ e, ValidateOperator c.operator = Except.error e) ∨
  (∃ e, ValidateValue c.operator c.value = Except.error e)

-- ===== Scanner lemmas =====

theorem scanStep_idle (e : List ℕ) (c : Char) (h : c ≠ '$') :
    scanStep (e, none) c = (e, none) := by
  simp [scanStep, h]

theorem scanStep_open_digit (e : List ℕ) (c : Char) (hd : c.isDigit = true) :
    scanStep (e, some none) c = (e, some (some (c.toNat - 48))) := by
  have hc : c ≠ '$' := by
    intro h
    subst h
    simp [Char.isDigit] at hd
  simp [scanStep, hc, hd]

theorem scanStep_run_digit (e : List ℕ) (v : ℕ) (c : Char) (hd : c.isDigit = true) :
    scanStep (e, some (some v)) c = (e, some (some (10 * v + (c.toNat - 48)))) := by
  have hc : c ≠ '$' := by
    intro h
    subst h
    simp [Char.isDigit] at hd
  simp [scanStep, hc, hd]

theorem scan_clean (a : List Char) (h : ∀ c ∈ a, c ≠ '$') (e : List ℕ) :
    a.foldl scanStep (e, none) = (e, none) := by
  induction a with
  | nil => rfl
  | cons c rest ih =>
    have hc : c ≠ '$' := h c (List.mem_cons_self c rest)
    rw [List.foldl_cons, scanStep_idle e c hc]
    exact ih (fun x hx => h x (List.mem_cons_of_mem c hx))

theorem scan_digit_run (ds : List Char) (h : ∀ c ∈ ds, c.isDigit = true)
    (e : List ℕ) (v : ℕ) :
    ds.foldl scanStep (e, some (some v)) = (e, some (some (parseAcc v ds))) := by
  induction ds generalizing v with
  | nil => rfl
  | cons c rest ih =>
    have hc : c.isDigit = true := h c (List.mem_cons_self c rest)
    rw [List.foldl_cons, scanStep_run_digit e v c hc]
    rw [ih (fun x hx => h x (List.mem_cons_of_mem c hx))]
    rfl

theorem scan_digit_start (ds : List Char) (h : ∀ c ∈ ds, c.isDigit = true)
    (hne : ds ≠ []) (e : List ℕ) :
    ds.foldl scanStep (e, some none) = (e, some (some (parseAcc 0 ds))) := by
  cases ds with
  | nil => exact absurd rfl hne
  | cons c rest =>
    have hc : c.isDigit = true := h c (List.mem_cons_self c rest)
    rw [List.foldl_cons, scanStep_open_digit e c hc]
    rw [scan_digit_run rest (fun x hx => h x (List.mem_cons_of_mem c hx))]
    simp [parseAcc]

theorem scan_close (b : List Char) (hb : goodCont b) (e : List ℕ) (v : ℕ) :
    scanFlush (b.foldl scanStep (e, some (some v))) =
    scanFlush (b.foldl scanStep (e ++ [v], none)) := by
  cases b with
  | nil => rfl
  | cons c rest =>
    obtain ⟨hc, hd⟩ := hb c rfl
    rw [List.foldl_cons, List.foldl_cons]
    have h1 : scanStep (e, some (some v)) c = (e ++ [v], none) := by
      simp [scanStep, hc, hd]
    have h2 : scanStep (e ++ [v], none) c = (e ++ [v], none) := scanStep_idle _ c hc
    rw [h1, h2]

theorem natDigitsGo_fuel (f1 : ℕ) : ∀ (f2 n : ℕ), n < f1 → n < f2 →
    natDigitsGo f1 n = natDigitsGo f2 n := by
  induction f1 with
  | zero => intro f2 n h1 _; omega
  | succ f ih =>
    intro f2 n h1 h2
    cases f2 with
    | zero => omega
    | succ g =>
      show (if n < 10 then _ else _) = (if n < 10 then _ else _)
      by_cases hn : n < 10
      · rw [if_pos hn, if_pos hn]
      · rw [if_neg hn, if_neg hn]
        have hd : n / 10 < n := Nat.div_lt_self (by omega) (by omega)
        rw [ih g (n / 10) (by omega) (by omega)]

theorem natDigits_unfold (n : ℕ) : natDigits n =
    if n < 10 then [Char.ofNat (48 + n)]
    else natDigits (n / 10) ++ [Char.ofNat (48 + n % 10)] := by
  show natDigitsGo (n + 1) n = _
  by_cases hn : n < 10
  · cases n with
    | zero => simp [natDigitsGo, hn]
    | succ m =>
      show (if m + 1 < 10 then _ else _) = _
      rw [if_pos hn, if_pos hn]
  · show (if n < 10 then _ else _) = _
    rw [if_neg hn, if_neg hn]
    have hd : n / 10 < n := Nat.div_lt_self (by omega) (by omega)
    rw [natDigitsGo_fuel n (n / 10 + 1) (n / 10) (by omega) (by omega)]
    rfl

theorem natDigits_mem (n : ℕ) :
    ∀ c ∈ natDigits n, c.isDigit = true ∧ c ≠ '$' := by
  induction n using Nat.strong_induction_on with
  | _ n ih =>
    rw [natDigits_unfold]
    split
    · rename_i h
      intro c hc
      simp only [List.mem_singleton] at hc
      subst hc
      interval_cases n <;> exact ⟨by decide, by decide⟩
    · rename_i h
      intro c hc
      rw [List.mem_append] at hc
      rcases hc with hc | hc
      · exact ih (n / 10) (Nat.div_lt_self (by omega) (by omega)) c hc
      · simp only [List.mem_singleton] at hc
        subst hc
        have h10 : n % 10 < 10 := Nat.mod_lt n (by omega)
        set r := n % 10 with hr
        interval_cases r <;> exact ⟨by decide, by decide⟩

theorem parseAcc_append (v : ℕ) (a b : List Char) :
    parseAcc v (a ++ b) = parseAcc (parseAcc v a) b := by
  simp [parseAcc, List.foldl_append]

theorem parse_natDigits (n : ℕ) : parseAcc 0 (natDigits n) = n := by
  induction n using Nat.strong_induction_on with
  | _ n ih =>
    rw [natDigits_unfold]
    split
    · rename_i h
      show parseAcc 0 [Char.ofNat (48 + n)] = n
      interval_cases n <;> decide
    · rename_i h
      rw [parseAcc_append, ih (n / 10) (Nat.div_lt_self (by omega) (by omega))]
      show 10 * (n / 10) + ((Char.ofNat (48 + n % 10)).toNat - 48) = n
      have h10 : n % 10 < 10 := Nat.mod_lt n (by omega)
      have hc : (Char.ofNat (48 + n % 10)).toNat = 48 + n % 10 := by
        set r := n % 10 with hr
        interval_cases r <;> decide
      rw [hc]
      omega

theorem scanPlaceholders_eq_scanOut (s : String) :
    scanPlaceholders s = scanOut [] s.data := rfl

theorem scanOut_nil (e : List ℕ) : scanOut e [] = e := rfl

theorem scanOut_clean (a : List Char) (h : ∀ c ∈ a, c ≠ '$')
    (e : List ℕ) (b : List Char) : scanOut e (a ++ b) = scanOut e b := by
  unfold scanOut
  rw [List.foldl_append, scan_clean a h e]

theorem scanOut_ph (k : ℕ) (e : List ℕ) (b : List Char) (hb : goodCont b) :
    scanOut e (('$' :: natDigits k) ++ b) = scanOut (e ++ [k]) b := by
  unfold scanOut
  rw [List.cons_append, List.foldl_cons]
  have h1 : scanStep (e, none) '$' = (e, some none) := by
    simp [scanStep]
  rw [h1, List.foldl_append]
  have hd : ∀ c ∈ natDigits k, c.isDigit = true :=
    fun c hc => (natDigits_mem k c hc).1
  have hne : natDigits k ≠ [] := by
    rw [natDigits_unfold]
    split <;> simp
  rw [scan_digit_start (natDigits k) hd hne e, parse_natDigits k]
  exact scan_close b hb e k

theorem sanitizeIdent_clean (s : String) (h : ∀ c ∈ s.data, c ≠ '$') :
    ∀ c ∈ (sanitizeIdent s).data, c ≠ '$' := by
  intro c hc
  unfold sanitizeIdent at hc
  rw [String.data_append, String.data_append] at hc
  simp only [List.mem_append] at hc
  rcases hc with (hc | hc) | hc
  · simp only [show ("\"" : String).data = ['"'] from rfl, List.mem_singleton] at hc
    subst hc
    decide
  · change c ∈ s.data.flatMap _ at hc
    rw [List.mem_flatMap] at hc
    obtain ⟨a, ha, hca⟩ := hc
    by_cases hq : a = '"'
    · simp only [hq, if_pos rfl] at hca
      intro hce
      rw [hce] at hca
      revert hca
      decide
    · rw [if_neg hq, List.mem_singleton] at hca
      rw [hca]
      exact h a ha
  · simp only [show ("\"" : String).data = ['"'] from rfl, List.mem_singleton] at hc
    subst hc
    decide

theorem validOperator_clean (op : String) (h : ValidateOperator op = Except.ok ()) :
    ∀ c ∈ op.data, c ≠ '$' := by
  intro c hc hdollar
  subst hdollar
  unfold ValidateOperator at h
  split at h
  · rename_i hcont
    have hmem : upperStr op ∈ supportedOperators := by simpa using hcont
    have hup : '$' ∈ (upperStr op).data := by
      have : Char.toUpper '$' ∈ op.data.map Char.toUpper := List.mem_map_of_mem _ hc
      simpa [upperStr] using this
    simp only [supportedOperators, List.mem_cons, List.not_mem_nil, or_false] at hmem
    rcases hmem with h1 | h1 | h1 | h1 | h1 | h1 | h1 | h1 | h1 | h1 | h1 | h1 <;>
      (rw [h1] at hup; revert hup; decide)
  · exact absurd h (by simp)

theorem goodCont_nil : goodCont [] := by
  intro c hc
  cases hc

theorem goodCont_cons (c : Char) (b : List Char)
    (h1 : c ≠ '$') (h2 : c.isDigit = false) : goodCont (c :: b) := by
  intro x hx
  rw [List.head?_cons, Option.some_inj] at hx
  subst hx
  exact ⟨h1, h2⟩

theorem clean_append (a b : List Char) (ha : ∀ c ∈ a, c ≠ '$')
    (hb : ∀ c ∈ b, c ≠ '$') : ∀ c ∈ a ++ b, c ≠ '$' := by
  intro c hc
  rcases List.mem_append.mp hc with h | h
  · exact ha c h
  · exact hb c h

/-- One placeholder string `$k` as produced by the `IN` loop. -/
theorem ph_data (k : ℕ) : ("$" ++ natToString k).data = '$' :: natDigits k := by
  rw [String.data_append]
  rfl

theorem scanOut_joinPH (n : ℕ) : ∀ (k : ℕ) (e : List ℕ) (b : List Char),
    goodCont b →
    scanOut e ((joinSep ", " ((List.range' k n).map (fun i => "$" ++ natToString i))).data ++ b) =
    scanOut (e ++ List.range' k n) b := by
  induction n with
  | zero =>
    intro k e b _
    simp [joinSep, scanOut]
  | succ n ih =>
    intro k e b hb
    cases n with
    | zero =>
      show scanOut e ((joinSep ", " [("$" ++ natToString k)]).data ++ b) = _
      rw [show joinSep ", " [("$" ++ natToString k)] = "$" ++ natToString k from rfl]
      rw [ph_data k]
      rw [scanOut_ph k e b hb]
      rfl
    | succ m =>
      have hrange : List.range' k (m + 1 + 1) = k :: List.range' (k + 1) (m + 1) := rfl
      rw [hrange]
      have hmap : (k :: List.range' (k + 1) (m + 1)).map (fun i => "$" ++ natToString i) =
          ("$" ++ natToString k) :: (List.range' (k + 1) (m + 1)).map (fun i => "$" ++ natToString i) := rfl
      rw [hmap]
      have hcons : ∃ y rest, (List.range' (k + 1) (m + 1)).map (fun i => "$" ++ natToString i) = y :: rest := by
        refine ⟨"$" ++ natToString (k + 1), (List.range' (k + 2) m).map (fun i => "$" ++ natToString i), ?_⟩
        rfl
      obtain ⟨y, rest, hyr⟩ := hcons
      rw [hyr]
      have hjoin : joinSep ", " (("$" ++ natToString k) :: y :: rest) =
          ("$" ++ natToString k) ++ ", " ++ joinSep ", " (y :: rest) := rfl
      rw [hjoin]
      rw [String.data_append, String.data_append, ph_data k]
      have hgroup : (('$' :: natDigits k) ++ (", " : String).data ++ (joinSep ", " (y :: rest)).data) ++ b =
          ('$' :: natDigits k) ++ ((", " : String).data ++ ((joinSep ", " (y :: rest)).data ++ b)) := by
        simp [List.append_assoc]
      rw [hgroup]
      rw [scanOut_ph k e _ (by
        refine goodCont_cons ',' _ (by decide) (by decide))]
      rw [show ((", " : String).data ++ ((joinSep ", " (y :: rest)).data ++ b)) =
          ([',', ' '] ++ ((joinSep ", " (y :: rest)).data ++ b)) from rfl]
      rw [scanOut_clean [',', ' '] (by decide) _ _]
      rw [← hyr]
      rw [ih (k + 1) (e ++ [k]) b hb]
      simp

theorem scanOut_ph2 (k : ℕ) (e : List ℕ) (b : List Char) (hb : goodCont b) :
    scanOut e ('$' :: (natDigits k ++ b)) = scanOut (e ++ [k]) b := by
  have := scanOut_ph k e b hb
  simpa using this

theorem scan_buildCondition (cond : FilterCondition) (k : ℕ)
    (clause : String) (args : List GoValue) (k2 : ℕ)
    (h : buildCondition cond k = Except.ok (clause, args, k2))
    (hcol : ∀ c ∈ cond.column.data, c ≠ '$') :
    k2 = k + args.length ∧
    ∀ (e : List ℕ) (b : List Char), goodCont b →
      scanOut e (clause.data ++ b) = scanOut (e ++ List.range' k args.length) b := by
  unfold buildCondition at h
  cases hvo : ValidateOperator cond.operator with
  | error e => rw [hvo] at h; cases h
  | ok u =>
  rw [hvo] at h
  cases hvv : ValidateValue cond.operator cond.value with
  | error e => rw [hvv] at h; cases h
  | ok u2 =>
  rw [hvv] at h
  simp only [] at h
  have hopclean : ∀ c ∈ cond.operator.data, c ≠ '$' := by
    cases u
    exact validOperator_clean cond.operator hvo
  have hcolclean : ∀ c ∈ (sanitizeIdent cond.column).data, c ≠ '$' :=
    sanitizeIdent_clean cond.column hcol
  split at h
  · -- IS NULL / IS NOT NULL
    rename_i hop
    simp only [Except.ok.injEq, Prod.mk.injEq] at h
    obtain ⟨hclause, hargs, hk2⟩ := h
    subst hclause hargs hk2
    refine ⟨by simp, ?_⟩
    intro e b _
    simp only [String.data_append, List.append_assoc]
    rw [scanOut_clean ((sanitizeIdent cond.column).data) hcolclean]
    rw [scanOut_clean ((" " : String).data) (by decide)]
    have hupclean : ∀ c ∈ (upperStr cond.operator).data, c ≠ '$' := by
      rcases hop with hop | hop <;> (rw [hop]; decide)
    rw [scanOut_clean ((upperStr cond.operator).data) hupclean]
    simp
  · rename_i hnotnull
    split at h
    · -- IN / NOT IN
      rename_i hop
      cases hval : cond.value with
      | gList values =>
        rw [hval] at h
        simp only [Except.ok.injEq, Prod.mk.injEq] at h
        obtain ⟨hclause, hargs, hk2⟩ := h
        subst hargs
        refine ⟨by omega, ?_⟩
        intro e b hb
        subst hclause
        simp only [String.data_append, List.append_assoc]
        rw [scanOut_clean ((sanitizeIdent cond.column).data) hcolclean]
        rw [scanOut_clean ((" " : String).data) (by decide)]
        have hupclean : ∀ c ∈ (upperStr cond.operator).data, c ≠ '$' := by
          rcases hop with hop | hop <;> (rw [hop]; decide)
        rw [scanOut_clean ((upperStr cond.operator).data) hupclean]
        rw [scanOut_clean ((" (" : String).data) (by decide)]
        rw [scanOut_joinPH values.length k e _ (by
          rw [show ((")" : String).data ++ b) = (')' :: b) from rfl]
          exact goodCont_cons ')' b (by decide) (by decide))]
        rw [scanOut_clean (((")") : String).data) (by decide)]
      | gNull => rw [hval] at h; cases h
      | gStr s => rw [hval] at h; cases h
      | gInt i => rw [hval] at h; cases h
      | gNum q => rw [hval] at h; cases h
      | gBool x => rw [hval] at h; cases h
    · -- single-value operator
      simp only [Except.ok.injEq, Prod.mk.injEq] at h
      obtain ⟨hclause, hargs, hk2⟩ := h
      subst hargs
      refine ⟨by simpa using hk2.symm, ?_⟩
      intro e b hb
      subst hclause
      rw [show (" $" : String) = " " ++ "$" from rfl]
      simp only [String.data_append, List.append_assoc]
      rw [scanOut_clean ((sanitizeIdent cond.column).data) hcolclean]
      rw [scanOut_clean ((" " : String).data) (by decide)]
      rw [scanOut_clean (cond.operator.data) hopclean]
      rw [scanOut_clean ((" " : String).data) (by decide)]
      rw [show (("$" : String).data ++ ((natToString k).data ++ b)) =
        ('$' :: (natDigits k ++ b)) from rfl]
      rw [scanOut_ph2 k e b hb]
      rfl

theorem range'_glue (s m n : ℕ) :
    List.range' s m ++ List.range' (s + m) n = List.range' s (m + n) := by
  have h := List.range'_append s m n 1
  simp only [one_mul] at h
  rw [h, Nat.add_comm n m]

theorem goodCont_append (a b : List Char) (ha : goodCont a) (hne : a ≠ []) :
    goodCont (a ++ b) := by
  cases a with
  | nil => exact absurd rfl hne
  | cons c rest =>
    intro x hx
    rw [List.cons_append, List.head?_cons, Option.some_inj] at hx
    subst hx
    exact ha c rfl

theorem scanOut_empty_eq (e : List ℕ) : scanOut e [] = e := rfl

theorem scan_buildConditions (conds : List FilterCondition) :
    ∀ (k : ℕ) (clauses : List String) (args : List GoValue) (k2 : ℕ),
    buildConditions conds k = Except.ok (clauses, args, k2) →
    (∀ c ∈ conds, ∀ x ∈ c.column.data, x ≠ '$') →
    ∀ (sep : String), (∀ c ∈ sep.data, c ≠ '$') → goodCont sep.data → sep.data ≠ [] →
    k2 = k + args.length ∧
    ∀ (e : List ℕ) (b : List Char), goodCont b →
      scanOut e ((joinSep sep clauses).data ++ b) = scanOut (e ++ List.range' k args.length) b := by
  induction conds with
  | nil =>
    intro k clauses args k2 h _ sep _ _ _
    unfold buildConditions at h
    simp only [Except.ok.injEq, Prod.mk.injEq] at h
    obtain ⟨h1, h2, h3⟩ := h
    subst h1 h2 h3
    exact ⟨by simp, by intro e b _; simp [joinSep, scanOut_empty_eq]⟩
  | cons c rest ih =>
    intro k clauses args k2 h hcols sep hsep1 hsep2 hsepne
    unfold buildConditions at h
    cases hbc : buildCondition c k with
    | error e => rw [hbc] at h; cases h
    | ok t1 =>
    rw [hbc] at h
    obtain ⟨cl, cargs, kk⟩ := t1
    simp only [] at h
    cases hbr : buildConditions rest kk with
    | error e => rw [hbr] at h; cases h
    | ok t2 =>
    rw [hbr] at h
    obtain ⟨cls, rargs, kk2⟩ := t2
    simp only [] at h
    simp only [Except.ok.injEq, Prod.mk.injEq] at h
    obtain ⟨h1, h2, h3⟩ := h
    subst h1 h2 h3
    obtain ⟨hkk, hscanC⟩ := scan_buildCondition c k cl cargs kk hbc
      (hcols c (List.mem_cons_self c rest))
    obtain ⟨hk2, hscanR⟩ := ih kk cls rargs kk2 hbr
      (fun x hx => hcols x (List.mem_cons_of_mem c hx)) sep hsep1 hsep2 hsepne
    constructor
    · simp only [List.length_append]
      omega
    · intro e b hb
      cases cls with
      | nil =>
        have hrzero : rargs.length = 0 := by
          have h0 := hscanR [] [] goodCont_nil
          simp only [joinSep, scanOut_empty_eq] at h0
          have : List.range' kk rargs.length = [] := by
            simpa [scanOut_empty_eq] using h0.symm
          simpa using congrArg List.length this
        rw [show joinSep sep [cl] = cl from rfl]
        rw [hscanC e b hb]
        simp [hrzero]
      | cons c2 rest2 =>
        rw [show joinSep sep (cl :: c2 :: rest2) = cl ++ sep ++ joinSep sep (c2 :: rest2) from rfl]
        simp only [String.data_append, List.append_assoc]
        rw [hscanC e _ (goodCont_append sep.data _ hsep2 hsepne)]
        rw [scanOut_clean sep.data hsep1]
        rw [hscanR _ b hb]
        rw [List.append_assoc, hkk, range'_glue]
        simp [List.length_append]

theorem sanitizeIdent_ne (s : String) : (sanitizeIdent s).data ≠ [] := by
  unfold sanitizeIdent
  rw [String.data_append, String.data_append]
  simp

theorem buildCondition_clause_ne (cond : FilterCondition) (k : ℕ)
    (cl : String) (a : List GoValue) (k2 : ℕ)
    (h : buildCondition cond k = Except.ok (cl, a, k2)) : cl.data ≠ [] := by
  unfold buildCondition at h
  cases hvo : ValidateOperator cond.operator with
  | error e => rw [hvo] at h; cases h
  | ok u =>
  rw [hvo] at h
  cases hvv : ValidateValue cond.operator cond.value with
  | error e => rw [hvv] at h; cases h
  | ok u2 =>
  rw [hvv] at h
  simp only [] at h
  split at h
  · simp only [Except.ok.injEq, Prod.mk.injEq] at h
    obtain ⟨h1, _, _⟩ := h
    subst h1
    rw [String.data_append, String.data_append]
    simp [sanitizeIdent_ne cond.column]
  · split at h
    · cases hval : cond.value with
      | gList values =>
        rw [hval] at h
        simp only [Except.ok.injEq, Prod.mk.injEq] at h
        obtain ⟨h1, _, _⟩ := h
        subst h1
        simp only [String.data_append]
        simp [sanitizeIdent_ne cond.column]
      | gNull => rw [hval] at h; cases h
      | gStr s => rw [hval] at h; cases h
      | gInt i => rw [hval] at h; cases h
      | gNum q => rw [hval] at h; cases h
      | gBool x => rw [hval] at h; cases h
    · simp only [Except.ok.injEq, Prod.mk.injEq] at h
      obtain ⟨h1, _, _⟩ := h
      subst h1
      simp only [String.data_append]
      simp [sanitizeIdent_ne cond.column]

theorem joinSep_cons_ne (sep : String) (cl : String) (rest : List String)
    (h : cl.data ≠ []) : (joinSep sep (cl :: rest)).data ≠ [] := by
  cases rest with
  | nil => exact h
  | cons y ys =>
    rw [show joinSep sep (cl :: y :: ys) = cl ++ sep ++ joinSep sep (y :: ys) from rfl]
    rw [String.data_append, String.data_append]
    simp [h]

theorem buildFilterFromStruct_empty_out (f : Filter) (k : ℕ)
    (args : List GoValue) (k2 : ℕ)
    (h : buildFilterFromStruct f k = Except.ok ("", args, k2)) :
    args = [] ∧ k2 = k := by
  unfold buildFilterFromStruct at h
  split at h
  · simp only [Except.ok.injEq, Prod.mk.injEq] at h
    exact ⟨h.2.1.symm, h.2.2.symm⟩
  · rename_i hne
    split at h
    · cases h
    · cases hbc : buildConditions f.conditions k with
      | error e => rw [hbc] at h; cases h
      | ok t =>
        rw [hbc] at h
        obtain ⟨clauses, cargs, kk⟩ := t
        simp only [Except.ok.injEq, Prod.mk.injEq] at h
        obtain ⟨h1, _, _⟩ := h
        cases hcl : f.conditions with
        | nil => rw [hcl] at hne; simp at hne
        | cons c crest =>
          rw [hcl] at hbc
          unfold buildConditions at hbc
          cases hbcc : buildCondition c k with
          | error e => rw [hbcc] at hbc; cases hbc
          | ok t1 =>
            rw [hbcc] at hbc
            obtain ⟨cl, ca, ka⟩ := t1
            simp only [] at hbc
            cases hbr : buildConditions crest ka with
            | error e => rw [hbr] at hbc; cases hbc
            | ok t2 =>
              rw [hbr] at hbc
              obtain ⟨cls, ra, ka2⟩ := t2
              simp only [Except.ok.injEq, Prod.mk.injEq] at hbc
              obtain ⟨hb1, _, _⟩ := hbc
              subst hb1
              have := joinSep_cons_ne (" " ++ effectiveLogic f ++ " ") cl cls
                (buildCondition_clause_ne c k cl ca ka hbcc)
              rw [h1] at this
              exact absurd rfl this

theorem scan_buildFilterFromStruct (f : Filter) (k : ℕ) (clause : String)
    (args : List GoValue) (k2 : ℕ)
    (h : buildFilterFromStruct f k = Except.ok (clause, args, k2))
    (hc : ∀ c ∈ f.conditions, ∀ x ∈ c.column.data, x ≠ '$') :
    k2 = k + args.length ∧
    ∀ (e : List ℕ) (b : List Char), goodCont b →
      scanOut e (clause.data ++ b) = scanOut (e ++ List.range' k args.length) b := by
  unfold buildFilterFromStruct at h
  split at h
  · simp only [Except.ok.injEq, Prod.mk.injEq] at h
    obtain ⟨h1, h2, h3⟩ := h
    subst h1 h2 h3
    exact ⟨by simp, by intro e b _; simp [scanOut_empty_eq]⟩
  · rename_i hne
    split at h
    · cases h
    · rename_i hlogic
      cases hbc : buildConditions f.conditions k with
      | error e => rw [hbc] at h; cases h
      | ok t =>
        rw [hbc] at h
        obtain ⟨clauses, cargs, kk⟩ := t
        simp only [Except.ok.injEq, Prod.mk.injEq] at h
        obtain ⟨h1, h2, h3⟩ := h
        have hlg : effectiveLogic f = "AND" ∨ effectiveLogic f = "OR" := by
          rcases Decidable.em (effectiveLogic f = "AND") with hh | hh
          · exact Or.inl hh
          · rcases Decidable.em (effectiveLogic f = "OR") with hh2 | hh2
            · exact Or.inr hh2
            · exact absurd ⟨hh, hh2⟩ hlogic
        obtain ⟨hkk, hscan⟩ := scan_buildConditions f.conditions k clauses cargs kk hbc hc
          (" " ++ effectiveLogic f ++ " ")
          (by rcases hlg with hl | hl <;> (rw [hl]; decide))
          (by rcases hlg with hl | hl <;> (rw [hl]; exact goodCont_cons ' ' _ (by decide) (by decide)))
          (by rcases hlg with hl | hl <;> (rw [hl]; decide))
        subst h1
        subst h3
        subst h2
        exact ⟨hkk, hscan⟩

theorem scan_wrapParens (cl : String) (s : ℕ) (n : ℕ)
    (hscan : ∀ (e : List ℕ) (b : List Char), goodCont b →
      scanOut e (cl.data ++ b) = scanOut (e ++ List.range' s n) b) :
    ∀ (e : List ℕ) (b : List Char), goodCont b →
      scanOut e (("(" ++ cl ++ ")").data ++ b) = scanOut (e ++ List.range' s n) b := by
  intro e b hb
  simp only [String.data_append, List.append_assoc]
  rw [scanOut_clean (("(" : String).data) (by decide)]
  rw [hscan e _ (by
    rw [show ((")" : String).data ++ b) = (')' :: b) from rfl]
    exact goodCont_cons ')' b (by decide) (by decide))]
  rw [show ((")" : String).data ++ b) = ([')'] ++ b) from rfl]
  rw [scanOut_clean [')'] (by decide)]

theorem scan_configFrag (cf : Option ConfigFilter) (s : ℕ)
    (conds1 : List String) (args1 : List GoValue) (k1 : ℕ)
    (h : buildFilterClauseConfig cf s = Except.ok (conds1, args1, k1))
    (hcf : cleanStructuredConfig cf) :
    k1 = s + args1.length ∧
    ((conds1 = [] ∧ args1 = []) ∨
     (∃ frag, conds1 = [frag] ∧
       ∀ (e : List ℕ) (b : List Char), goodCont b →
         scanOut e (frag.data ++ b) = scanOut (e ++ List.range' s args1.length) b)) := by
  unfold buildFilterClauseConfig at h
  cases cf with
  | none =>
    simp only [Except.ok.injEq, Prod.mk.injEq] at h
    obtain ⟨h1, h2, h3⟩ := h
    subst h1 h2 h3
    exact ⟨by simp, Or.inl ⟨rfl, rfl⟩⟩
  | some c =>
    obtain ⟨hraw, hstruct⟩ := hcf
    simp only [] at h
    rw [if_neg (fun hcon => hcon hraw)] at h
    cases hs : c.structured with
    | none =>
      rw [hs] at h
      simp only [Except.ok.injEq, Prod.mk.injEq] at h
      obtain ⟨h1, h2, h3⟩ := h
      subst h1 h2 h3
      exact ⟨by simp, Or.inl ⟨rfl, rfl⟩⟩
    | some f =>
      rw [hs] at h
      simp only [] at h
      cases hbs : buildFilterFromStruct f s with
      | error e => rw [hbs] at h; cases h
      | ok t =>
        rw [hbs] at h
        obtain ⟨cl, cargs, kk⟩ := t
        simp only [] at h
        by_cases hcl : cl = ""
        · rw [if_neg (by simpa using hcl)] at h
          simp only [Except.ok.injEq, Prod.mk.injEq] at h
          obtain ⟨h1, h2, h3⟩ := h
          subst h1 h2 h3
          subst hcl
          obtain ⟨ha, hk⟩ := buildFilterFromStruct_empty_out f s cargs kk hbs
          subst ha hk
          exact ⟨by simp, Or.inl ⟨rfl, rfl⟩⟩
        · rw [if_pos (by simpa using hcl)] at h
          simp only [Except.ok.injEq, Prod.mk.injEq] at h
          obtain ⟨h1, h2, h3⟩ := h
          subst h1 h2 h3
          obtain ⟨hkk, hscan⟩ := scan_buildFilterFromStruct f s cl cargs kk hbs
            (hstruct f hs)
          exact ⟨hkk, Or.inr ⟨"(" ++ cl ++ ")", rfl, scan_wrapParens cl s cargs.length hscan⟩⟩

theorem scan_requestFrag (rf : Option Filter) (k1 : ℕ)
    (conds2 : List String) (args2 : List GoValue) (k2 : ℕ)
    (h : buildFilterClauseRequest rf k1 = Except.ok (conds2, args2, k2))
    (hrf : cleanRequest rf) :
    (conds2 = [] ∧ args2 = []) ∨
    (∃ frag, conds2 = [frag] ∧
      ∀ (e : List ℕ) (b : List Char), goodCont b →
        scanOut e (frag.data ++ b) = scanOut (e ++ List.range' k1 args2.length) b) := by
  unfold buildFilterClauseRequest at h
  cases rf with
  | none =>
    simp only [Except.ok.injEq, Prod.mk.injEq] at h
    obtain ⟨h1, h2, h3⟩ := h
    subst h1 h2 h3
    exact Or.inl ⟨rfl, rfl⟩
  | some f =>
    simp only [] at h
    cases hbs : buildFilterFromStruct f k1 with
    | error e => rw [hbs] at h; cases h
    | ok t =>
      rw [hbs] at h
      obtain ⟨cl, cargs, kk⟩ := t
      simp only [] at h
      by_cases hcl : cl = ""
      · rw [if_neg (by simpa using hcl)] at h
        simp only [Except.ok.injEq, Prod.mk.injEq] at h
        obtain ⟨h1, h2, h3⟩ := h
        subst h1 h2 h3
        exact Or.inl ⟨rfl, rfl⟩
      · rw [if_pos (by simpa using hcl)] at h
        simp only [Except.ok.injEq, Prod.mk.injEq] at h
        obtain ⟨h1, h2, h3⟩ := h
        subst h1 h2 h3
        obtain ⟨hkk, hscan⟩ := scan_buildFilterFromStruct f k1 cl cargs kk hbs hrf
        exact Or.inr ⟨"(" ++ cl ++ ")", rfl, scan_wrapParens cl k1 cargs.length hscan⟩

theorem scan_buildFilterClause (cf : Option ConfigFilter) (rf : Option Filter)
    (s : ℕ) (clause : String) (args : List GoValue)
    (h : buildFilterClause cf rf s = Except.ok (clause, args))
    (hcf : cleanStructuredConfig cf) (hrf : cleanRequest rf) :
    ∀ (e : List ℕ) (b : List Char), goodCont b →
      scanOut e (clause.data ++ b) = scanOut (e ++ List.range' s args.length) b := by
  unfold buildFilterClause at h
  cases hc : buildFilterClauseConfig cf s with
  | error e => rw [hc] at h; cases h
  | ok t1 =>
  rw [hc] at h
  obtain ⟨conds1, args1, k1⟩ := t1
  simp only [] at h
  cases hr : buildFilterClauseRequest rf k1 with
  | error e => rw [hr] at h; cases h
  | ok t2 =>
  rw [hr] at h
  obtain ⟨conds2, args2, k2⟩ := t2
  simp only [] at h
  obtain ⟨hk1, hfrag1⟩ := scan_configFrag cf s conds1 args1 k1 hc hcf
  have hfrag2 := scan_requestFrag rf k1 conds2 args2 k2 hr hrf
  rcases hfrag1 with ⟨hc1, ha1⟩ | ⟨f1, hc1, hs1⟩ <;>
    rcases hfrag2 with ⟨hc2, ha2⟩ | ⟨f2, hc2, hs2⟩ <;>
    subst hc1 hc2
  · -- both empty
    simp only [List.length_nil, List.append_nil, ite_true, eq_self_iff_true,
      Except.ok.injEq, Prod.mk.injEq] at h
    obtain ⟨h1, h2⟩ := h
    subst h1
    subst ha1 ha2
    rw [← h2]
    intro e b _
    simp [scanOut_empty_eq]
  · -- config empty, request fragment
    subst ha1
    simp only [List.nil_append, List.length_cons, List.length_nil] at h
    rw [if_neg (by simp)] at h
    simp only [Except.ok.injEq, Prod.mk.injEq] at h
    obtain ⟨h1, h2⟩ := h
    subst h1
    subst h2
    intro e b hb
    rw [show joinSep " AND " [f2] = f2 from rfl]
    simp only [String.data_append, List.append_assoc]
    rw [scanOut_clean ((" WHERE " : String).data) (by decide)]
    have hk1s : k1 = s := by simpa using hk1
    rw [hs2 e b hb, hk1s]
  · -- config fragment, request empty
    subst ha2
    simp only [List.append_nil, List.length_cons, List.length_nil] at h
    rw [if_neg (by simp)] at h
    simp only [Except.ok.injEq, Prod.mk.injEq] at h
    obtain ⟨h1, h2⟩ := h
    subst h1
    subst h2
    intro e b hb
    rw [show joinSep " AND " [f1] = f1 from rfl]
    simp only [String.data_append, List.append_assoc]
    rw [scanOut_clean ((" WHERE " : String).data) (by decide)]
    rw [hs1 e b hb]
  · -- both fragments
    simp only [List.cons_append, List.nil_append, List.length_cons] at h
    rw [if_neg (by simp)] at h
    simp only [Except.ok.injEq, Prod.mk.injEq] at h
    obtain ⟨h1, h2⟩ := h
    subst h1
    subst h2
    intro e b hb
    rw [show joinSep " AND " [f1, f2] = f1 ++ " AND " ++ joinSep " AND " [f2] from rfl]
    rw [show joinSep " AND " [f2] = f2 from rfl]
    simp only [String.data_append, List.append_assoc]
    rw [scanOut_clean ((" WHERE " : String).data) (by decide)]
    rw [hs1 e _ (by
      rw [show ((" AND " : String).data ++ (f2.data ++ b)) =
        (' ' :: (("AND " : String).data ++ (f2.data ++ b))) from rfl]
      exact goodCont_cons ' ' _ (by decide) (by decide))]
    rw [scanOut_clean ((" AND " : String).data) (by decide)]
    rw [hs2 _ b hb]
    rw [List.append_assoc, hk1, range'_glue]
    simp [List.length_append]

theorem natDigits_one : natDigits 1 = ['1'] := rfl

theorem natDigits_two : natDigits 2 = ['2'] := rfl

theorem scanOut_d1 (e : List ℕ) (rest : List Char) (hb : goodCont rest) :
    scanOut e ('$' :: '1' :: rest) = scanOut (e ++ [1]) rest := by
  have h := scanOut_ph2 1 e rest hb
  rw [natDigits_one] at h
  simpa using h

theorem scanOut_d2 (e : List ℕ) (rest : List Char) (hb : goodCont rest) :
    scanOut e ('$' :: '2' :: rest) = scanOut (e ++ [2]) rest := by
  have h := scanOut_ph2 2 e rest hb
  rw [natDigits_two] at h
  simpa using h

theorem scanOut_d1A (e : List ℕ) (rest : List Char) (hb : goodCont rest) :
    scanOut e (['$'] ++ (['1'] ++ rest)) = scanOut (e ++ [1]) rest := by
  simpa using scanOut_d1 e rest hb

theorem scanOut_d2End (e : List ℕ) :
    scanOut e (['$'] ++ ['2']) = e ++ [2] := by
  have h := scanOut_d2 e [] goodCont_nil
  simpa [scanOut_empty_eq] using h

/-- C2.  For a successful compiler run over structured filters with start
index `s`, the placeholders in the produced SQL are exactly the
consecutive ascending sequence `s, s+1, …` (textual order), and the
argument vector has one entry per placeholder — so the argument count is
the highest placeholder minus `s` plus one, and zero when no placeholder
is emitted.  `VectorSearch` invokes the compiler with start index 3: its
query text carries `$1` (query vector) and `$2` (`LIMIT`) around the
filter placeholders `$3, …`, and its argument vector is the formatted
embedding, then the limit, then the filter arguments. -/
theorem filter_parameter_numbering :
    (∀ (cf : Option ConfigFilter) (rf : Option Filter) (s : ℕ)
      (clause : String) (args : List GoValue),
      cleanStructuredConfig cf → cleanRequest rf →
      buildFilterClause cf rf s = Except.ok (clause, args) →
      scanPlaceholders clause = List.range' s args.length) ∧
    (∀ (fmtEmb : String) (table : TableSource) (topN : Int) (rf : Option Filter)
      (q : String) (args : List GoValue),
      cleanStructuredConfig table.filter → cleanRequest rf →
      (∀ c ∈ (sanitizeTable table.table).data, c ≠ '$') →
      (∀ c ∈ table.textColumn.data, c ≠ '$') →
      (∀ c ∈ table.vectorColumn.data, c ≠ '$') →
      vectorSearchQuery fmtEmb table topN rf = Except.ok (q, args) →
      ∃ fargs, args = gStr fmtEmb :: gInt topN :: fargs ∧
        scanPlaceholders q = 1 :: (List.range' 3 fargs.length ++ [1, 2])) := by
  constructor
  · intro cf rf s clause args hcf hrf h
    have hs := scan_buildFilterClause cf rf s clause args h hcf hrf [] [] goodCont_nil
    rw [List.append_nil] at hs
    rw [scanPlaceholders_eq_scanOut, hs]
    simp [scanOut_empty_eq]
  · intro fmtEmb table topN rf q args hcf hrf htab htext hvec h
    unfold vectorSearchQuery at h
    cases hbf : buildFilterClause table.filter rf 3 with
    | error e => rw [hbf] at h; cases h
    | ok t =>
    rw [hbf] at h
    obtain ⟨fc, fargs⟩ := t
    simp only [Except.ok.injEq, Prod.mk.injEq] at h
    obtain ⟨hq, hargs⟩ := h
    refine ⟨fargs, hargs.symm, ?_⟩
    subst hq
    have hscanF := scan_buildFilterClause table.filter rf 3 fc fargs hbf hcf hrf
    rw [scanPlaceholders_eq_scanOut]
    rw [show (" <=> $1::vector) AS score\n\t\tFROM " : String) =
      " <=> " ++ "$" ++ "1" ++ "::vector) AS score\n\t\tFROM " from rfl]
    rw [show (" <=> $1::vector\n\t\tLIMIT $2" : String) =
      " <=> " ++ "$" ++ "1" ++ "::vector\n\t\tLIMIT " ++ "$" ++ "2" from rfl]
    simp only [String.data_append, List.append_assoc]
    rw [scanOut_clean (("\n\t\tSELECT\n\t\t\t" : String).data) (by decide)]
    rw [scanOut_clean ((sanitizeIdent table.textColumn).data)
      (sanitizeIdent_clean table.textColumn htext)]
    rw [scanOut_clean ((" AS content,\n\t\t\t1 - (" : String).data) (by decide)]
    rw [scanOut_clean ((sanitizeIdent table.vectorColumn).data)
      (sanitizeIdent_clean table.vectorColumn hvec)]
    rw [scanOut_clean ((" <=> " : String).data) (by decide)]
    rw [scanOut_d1A [] _ (by
      refine goodCont_append _ _ ?_ (by decide)
      exact goodCont_cons ':' _ (by decide) (by decide))]
    rw [scanOut_clean (("::vector) AS score\n\t\tFROM " : String).data) (by decide)]
    rw [scanOut_clean ((sanitizeTable table.table).data) htab]
    rw [hscanF ([] ++ [1]) _ (by
      refine goodCont_append _ _ ?_ (by decide)
      exact goodCont_cons '\n' _ (by decide) (by decide))]
    rw [scanOut_clean (("\n\t\tORDER BY " : String).data) (by decide)]
    rw [scanOut_clean ((sanitizeIdent table.vectorColumn).data)
      (sanitizeIdent_clean table.vectorColumn hvec)]
    rw [scanOut_clean ((" <=> " : String).data) (by decide)]
    rw [scanOut_d1A _ _ (by
      refine goodCont_append _ _ ?_ (by decide)
      exact goodCont_cons ':' _ (by decide) (by decide))]
    rw [scanOut_clean (("::vector\n\t\tLIMIT " : String).data) (by decide)]
    rw [scanOut_d2End]
    simp

/-- Witness for C2: a one-condition request filter compiled at start index
3, standalone and inside the `VectorSearch` query. -/
theorem filter_parameter_numbering_witness :
    scanPlaceholders " WHERE (\"product\" = $3)" = List.range' 3 1 ∧
    (∃ fargs, ([gStr "[0.1,0.2]", gInt 10, gStr "x"] : List GoValue) =
        gStr "[0.1,0.2]" :: gInt 10 :: fargs ∧
      scanPlaceholders ("\n\t\tSELECT\n\t\t\t\"content\" AS content,\n\t\t\t1 - (\"embedding\" <=> $1::vector) AS score\n\t\tFROM \"docs\" WHERE (\"product\" = $3)\n\t\tORDER BY \"embedding\" <=> $1::vector\n\t\tLIMIT $2") =
        1 :: (List.range' 3 fargs.length ++ [1, 2])) := by
  constructor
  · exact filter_parameter_numbering.1 none
      (some ⟨[⟨"product", "=", gStr "x"⟩], ""⟩) 3
      " WHERE (\"product\" = $3)" [gStr "x"]
      (by unfold cleanStructuredConfig; trivial)
      (by unfold cleanRequest cleanFilter; decide)
      rfl
  · exact filter_parameter_numbering.2 "[0.1,0.2]"
      ⟨"docs", "content", "embedding", "", none⟩ 10
      (some ⟨[⟨"product", "=", gStr "x"⟩], ""⟩)
      ("\n\t\tSELECT\n\t\t\t\"content\" AS content,\n\t\t\t1 - (\"embedding\" <=> $1::vector) AS score\n\t\tFROM \"docs\" WHERE (\"product\" = $3)\n\t\tORDER BY \"embedding\" <=> $1::vector\n\t\tLIMIT $2")
      [gStr "[0.1,0.2]", gInt 10, gStr "x"]
      (by unfold cleanStructuredConfig; trivial)
      (by unfold cleanRequest cleanFilter; decide)
      (by decide) (by decide) (by decide)
      (by rfl)

theorem validateValue_blank (op : String) (v : GoValue)
    (h : ValidateValue op v = Except.ok ()) :
    ValidateValue op (blankValue v) = Except.ok () := by
  unfold ValidateValue at h ⊢
  split at h
  · rename_i hnull
    rw [if_pos hnull]
  · rename_i hnull
    rw [if_neg hnull]
    split at h
    · rename_i hin
      rw [if_pos hin]
      cases v with
      | gList l =>
        simp only [blankValue]
        simp only [List.length_map]
        exact h
      | gNull => cases h
      | gStr s => cases h
      | gInt i => cases h
      | gNum q => cases h
      | gBool b => cases h
    · rename_i hin
      rw [if_neg hin]
      cases v with
      | gNull => cases h
      | gList l => rfl
      | gStr s => rfl
      | gInt i => rfl
      | gNum q => rfl
      | gBool b => rfl

theorem buildCondition_blank (c : FilterCondition) (k : ℕ) (cl : String)
    (a : List GoValue) (k2 : ℕ)
    (h : buildCondition c k = Except.ok (cl, a, k2)) :
    ∃ a2, buildCondition (blankCondition c) k = Except.ok (cl, a2, k2) ∧
      a2.length = a.length := by
  unfold buildCondition at h ⊢
  rw [show (blankCondition c).operator = c.operator from rfl,
    show (blankCondition c).column = c.column from rfl,
    show (blankCondition c).value = blankValue c.value from rfl]
  cases hvo : ValidateOperator c.operator with
  | error e => rw [hvo] at h; cases h
  | ok u =>
  rw [hvo] at h
  cases u
  cases hvv : ValidateValue c.operator c.value with
  | error e => rw [hvv] at h; cases h
  | ok u2 =>
  rw [hvv] at h
  cases u2
  rw [validateValue_blank c.operator c.value hvv]
  simp only [] at h
  split at h
  · rename_i hop
    rw [if_pos hop]
    simp only [Except.ok.injEq, Prod.mk.injEq] at h
    obtain ⟨h1, h2, h3⟩ := h
    subst h1 h2 h3
    exact ⟨[], rfl, rfl⟩
  · rename_i hop
    rw [if_neg hop]
    split at h
    · rename_i hin
      rw [if_pos hin]
      cases hval : c.value with
      | gList l =>
        rw [hval] at h
        simp only [Except.ok.injEq, Prod.mk.injEq] at h
        obtain ⟨h1, h2, h3⟩ := h
        subst h1 h2 h3
        refine ⟨l.map (fun _ => gNull), ?_, by simp⟩
        simp only [blankValue]
        simp only [List.length_map]
      | gNull => rw [hval] at h; cases h
      | gStr s => rw [hval] at h; cases h
      | gInt i => rw [hval] at h; cases h
      | gNum q => rw [hval] at h; cases h
      | gBool b => rw [hval] at h; cases h
    · rename_i hin
      rw [if_neg hin]
      simp only [Except.ok.injEq, Prod.mk.injEq] at h
      obtain ⟨h1, h2, h3⟩ := h
      subst h1 h2 h3
      exact ⟨[blankValue c.value], rfl, rfl⟩

theorem buildCondition_values (c : FilterCondition) (k : ℕ) (cl : String)
    (a : List GoValue) (k2 : ℕ)
    (h : buildCondition c k = Except.ok (cl, a, k2)) : a = condValues c := by
  unfold buildCondition at h
  unfold condValues
  cases hvo : ValidateOperator c.operator with
  | error e => rw [hvo] at h; cases h
  | ok u =>
  rw [hvo] at h
  cases hvv : ValidateValue c.operator c.value with
  | error e => rw [hvv] at h; cases h
  | ok u2 =>
  rw [hvv] at h
  simp only [] at h
  split at h
  · rename_i hop
    rw [if_pos hop]
    simp only [Except.ok.injEq, Prod.mk.injEq] at h
    exact h.2.1.symm
  · rename_i hop
    rw [if_neg hop]
    split at h
    · rename_i hin
      rw [if_pos hin]
      cases hval : c.value with
      | gList l =>
        rw [hval] at h
        simp only [Except.ok.injEq, Prod.mk.injEq] at h
        exact h.2.1.symm
      | gNull => rw [hval] at h; cases h
      | gStr s => rw [hval] at h; cases h
      | gInt i => rw [hval] at h; cases h
      | gNum q => rw [hval] at h; cases h
      | gBool b => rw [hval] at h; cases h
    · rename_i hin
      rw [if_neg hin]
      simp only [Except.ok.injEq, Prod.mk.injEq] at h
      exact h.2.1.symm

theorem buildConditions_blank (conds : List FilterCondition) :
    ∀ (k : ℕ) (clauses : List String) (args : List GoValue) (k2 : ℕ),
    buildConditions conds k = Except.ok (clauses, args, k2) →
    (∃ a2, buildConditions (conds.map blankCondition) k = Except.ok (clauses, a2, k2)) ∧
    args = conds.flatMap condValues := by
  induction conds with
  | nil =>
    intro k clauses args k2 h
    unfold buildConditions at h
    simp only [Except.ok.injEq, Prod.mk.injEq] at h
    obtain ⟨h1, h2, h3⟩ := h
    subst h1 h2 h3
    exact ⟨⟨[], rfl⟩, rfl⟩
  | cons c rest ih =>
    intro k clauses args k2 h
    unfold buildConditions at h
    cases hbc : buildCondition c k with
    | error e => rw [hbc] at h; cases h
    | ok t1 =>
    rw [hbc] at h
    obtain ⟨cl, cargs, kk⟩ := t1
    simp only [] at h
    cases hbr : buildConditions rest kk with
    | error e => rw [hbr] at h; cases h
    | ok t2 =>
    rw [hbr] at h
    obtain ⟨cls, rargs, kk2⟩ := t2
    simp only [Except.ok.injEq, Prod.mk.injEq] at h
    obtain ⟨h1, h2, h3⟩ := h
    subst h1 h2 h3
    obtain ⟨⟨ra2, hra⟩, hrv⟩ := ih kk cls rargs kk2 hbr
    obtain ⟨ca2, hca, _⟩ := buildCondition_blank c k cl cargs kk hbc
    constructor
    · refine ⟨ca2 ++ ra2, ?_⟩
      rw [show (c :: rest).map blankCondition =
        blankCondition c :: rest.map blankCondition from rfl]
      unfold buildConditions
      rw [hca]
      simp only []
      rw [hra]
    · rw [List.flatMap_cons, ← hrv, buildCondition_values c k cl cargs kk hbc]

theorem buildFilterFromStruct_blank (f : Filter) (k : ℕ) (clause : String)
    (args : List GoValue) (k2 : ℕ)
    (h : buildFilterFromStruct f k = Except.ok (clause, args, k2)) :
    (∃ a2, buildFilterFromStruct (blankFilter f) k = Except.ok (clause, a2, k2)) ∧
    args = filterValues f := by
  unfold buildFilterFromStruct at h ⊢
  rw [show (blankFilter f).conditions = f.conditions.map blankCondition from rfl]
  rw [show effectiveLogic (blankFilter f) = effectiveLogic f from rfl]
  simp only [List.length_map]
  split at h
  · rename_i hlen
    rw [if_pos hlen]
    simp only [Except.ok.injEq, Prod.mk.injEq] at h
    obtain ⟨h1, h2, h3⟩ := h
    subst h1 h2 h3
    refine ⟨⟨[], rfl⟩, ?_⟩
    unfold filterValues
    cases hc : f.conditions with
    | nil => rfl
    | cons x xs => rw [hc] at hlen; simp at hlen
  · rename_i hlen
    rw [if_neg hlen]
    split at h
    · cases h
    · rename_i hlv
      rw [if_neg hlv]
      cases hbc : buildConditions f.conditions k with
      | error e => rw [hbc] at h; cases h
      | ok t =>
        rw [hbc] at h
        obtain ⟨clauses, cargs, kk⟩ := t
        simp only [] at h
        simp only [Except.ok.injEq, Prod.mk.injEq] at h
        obtain ⟨h1, h2, h3⟩ := h
        subst h1 h2 h3
        obtain ⟨⟨a2, ha2⟩, hv⟩ := buildConditions_blank f.conditions k clauses cargs kk hbc
        rw [ha2]
        exact ⟨⟨a2, rfl⟩, hv⟩

theorem buildFilterClauseConfig_blank (cf : Option ConfigFilter) (s : ℕ)
    (conds : List String) (args : List GoValue) (k1 : ℕ)
    (h : buildFilterClauseConfig cf s = Except.ok (conds, args, k1)) :
    (∃ a2, buildFilterClauseConfig (blankOptConfig cf) s = Except.ok (conds, a2, k1)) ∧
    args = optConfigValues cf ∧ (conds = [] → args = []) := by
  unfold buildFilterClauseConfig at h
  cases cf with
  | none =>
    simp only [Except.ok.injEq, Prod.mk.injEq] at h
    obtain ⟨h1, h2, h3⟩ := h
    subst h1 h2 h3
    exact ⟨⟨[], rfl⟩, rfl, fun _ => rfl⟩
  | some c =>
    simp only [] at h
    by_cases hraw : c.rawSQL ≠ ""
    · rw [if_pos hraw] at h
      simp only [Except.ok.injEq, Prod.mk.injEq] at h
      obtain ⟨h1, h2, h3⟩ := h
      subst h1 h2 h3
      refine ⟨⟨[], ?_⟩, ?_, fun hco => List.noConfusion hco⟩
      · show buildFilterClauseConfig (some ⟨c.rawSQL, c.structured.map blankFilter⟩) s = _
        unfold buildFilterClauseConfig
        simp only []
        rw [if_pos hraw]
      · show [] = optConfigValues (some c)
        unfold optConfigValues
        simp only []
        rw [if_pos hraw]
    · rw [if_neg hraw] at h
      cases hs : c.structured with
      | none =>
        rw [hs] at h
        simp only [Except.ok.injEq, Prod.mk.injEq] at h
        obtain ⟨h1, h2, h3⟩ := h
        subst h1 h2 h3
        refine ⟨⟨[], ?_⟩, ?_, fun _ => rfl⟩
        · show buildFilterClauseConfig (some ⟨c.rawSQL, c.structured.map blankFilter⟩) s = _
          unfold buildFilterClauseConfig
          simp only []
          rw [if_neg hraw, hs]
          rfl
        · show [] = optConfigValues (some c)
          unfold optConfigValues
          simp only []
          rw [if_neg hraw, hs]
      | some f =>
        rw [hs] at h
        simp only [] at h
        cases hbs : buildFilterFromStruct f s with
        | error e => rw [hbs] at h; cases h
        | ok t =>
          rw [hbs] at h
          obtain ⟨cl, cargs, kk⟩ := t
          simp only [] at h
          obtain ⟨⟨a2, ha2⟩, hv⟩ := buildFilterFromStruct_blank f s cl cargs kk hbs
          by_cases hcl : cl = ""
          · rw [if_neg (by simpa using hcl)] at h
            simp only [Except.ok.injEq, Prod.mk.injEq] at h
            obtain ⟨h1, h2, h3⟩ := h
            subst h1 h2 h3
            subst hcl
            obtain ⟨hae, _⟩ := buildFilterFromStruct_empty_out f s cargs kk hbs
            subst hae
            refine ⟨⟨[], ?_⟩, ?_, fun _ => rfl⟩
            · show buildFilterClauseConfig (some ⟨c.rawSQL, c.structured.map blankFilter⟩) s = _
              unfold buildFilterClauseConfig
              simp only []
              rw [if_neg hraw, hs]
              simp only [Option.map]
              rw [ha2]
              rfl
            · show [] = optConfigValues (some c)
              unfold optConfigValues
              simp only []
              rw [if_neg hraw, hs]
              exact hv
          · rw [if_pos (by simpa using hcl)] at h
            simp only [Except.ok.injEq, Prod.mk.injEq] at h
            obtain ⟨h1, h2, h3⟩ := h
            subst h1 h2 h3
            refine ⟨⟨a2, ?_⟩, ?_, fun hco => List.noConfusion hco⟩
            · show buildFilterClauseConfig (some ⟨c.rawSQL, c.structured.map blankFilter⟩) s = _
              unfold buildFilterClauseConfig
              simp only []
              rw [if_neg hraw, hs]
              simp only [Option.map]
              rw [ha2]
              simp only []
              rw [if_pos (by simpa using hcl)]
            · show cargs = optConfigValues (some c)
              unfold optConfigValues
              simp only []
              rw [if_neg hraw, hs]
              exact hv

theorem buildFilterClauseRequest_blank (rf : Option Filter) (k1 : ℕ)
    (conds : List String) (args : List GoValue) (k2 : ℕ)
    (h : buildFilterClauseRequest rf k1 = Except.ok (conds, args, k2)) :
    (∃ a2, buildFilterClauseRequest (blankOptFilter rf) k1 = Except.ok (conds, a2, k2)) ∧
    args = optFilterValues rf ∧ (conds = [] → args = []) := by
  unfold buildFilterClauseRequest at h
  cases rf with
  | none =>
    simp only [Except.ok.injEq, Prod.mk.injEq] at h
    obtain ⟨h1, h2, h3⟩ := h
    subst h1 h2 h3
    exact ⟨⟨[], rfl⟩, rfl, fun _ => rfl⟩
  | some f =>
    simp only [] at h
    cases hbs : buildFilterFromStruct f k1 with
    | error e => rw [hbs] at h; cases h
    | ok t =>
      rw [hbs] at h
      obtain ⟨cl, cargs, kk⟩ := t
      simp only [] at h
      obtain ⟨⟨a2, ha2⟩, hv⟩ := buildFilterFromStruct_blank f k1 cl cargs kk hbs
      by_cases hcl : cl = ""
      · rw [if_neg (by simpa using hcl)] at h
        simp only [Except.ok.injEq, Prod.mk.injEq] at h
        obtain ⟨h1, h2, h3⟩ := h
        subst h1 h2 h3
        subst hcl
        obtain ⟨hae, _⟩ := buildFilterFromStruct_empty_out f k1 cargs kk hbs
        subst hae
        refine ⟨⟨[], ?_⟩, ?_, fun _ => rfl⟩
        · show buildFilterClauseRequest (some (blankFilter f)) k1 = _
          unfold buildFilterClauseRequest
          simp only []
          rw [ha2]
          rfl
        · exact hv
      · rw [if_pos (by simpa using hcl)] at h
        simp only [Except.ok.injEq, Prod.mk.injEq] at h
        obtain ⟨h1, h2, h3⟩ := h
        subst h1 h2 h3
        refine ⟨⟨a2, ?_⟩, ?_, fun hco => List.noConfusion hco⟩
        · show buildFilterClauseRequest (some (blankFilter f)) k1 = _
          unfold buildFilterClauseRequest
          simp only []
          rw [ha2]
          simp only []
          rw [if_pos (by simpa using hcl)]
        · exact hv

theorem buildFilterClause_blank (cf : Option ConfigFilter) (rf : Option Filter)
    (s : ℕ) (sql : String) (args : List GoValue)
    (h : buildFilterClause cf rf s = Except.ok (sql, args)) :
    (∃ a2, buildFilterClause (blankOptConfig cf) (blankOptFilter rf) s =
      Except.ok (sql, a2)) ∧
    args = optConfigValues cf ++ optFilterValues rf := by
  unfold buildFilterClause at h
  cases hc : buildFilterClauseConfig cf s with
  | error e => rw [hc] at h; cases h
  | ok t1 =>
  rw [hc] at h
  obtain ⟨conds1, args1, k1⟩ := t1
  simp only [] at h
  cases hr : buildFilterClauseRequest rf k1 with
  | error e => rw [hr] at h; cases h
  | ok t2 =>
  rw [hr] at h
  obtain ⟨conds2, args2, k2⟩ := t2
  simp only [] at h
  obtain ⟨⟨b1, hb1⟩, hv1, hn1⟩ := buildFilterClauseConfig_blank cf s conds1 args1 k1 hc
  obtain ⟨⟨b2, hb2⟩, hv2, hn2⟩ := buildFilterClauseRequest_blank rf k1 conds2 args2 k2 hr
  by_cases hlen : (conds1 ++ conds2).length = 0
  · rw [if_pos hlen] at h
    simp only [Except.ok.injEq, Prod.mk.injEq] at h
    obtain ⟨h1, h2⟩ := h
    subst h1
    have he1 : conds1 = [] := by
      cases conds1 with
      | nil => rfl
      | cons x xs => simp at hlen
    have he2 : conds2 = [] := by
      subst he1
      cases conds2 with
      | nil => rfl
      | cons x xs => simp at hlen
    constructor
    · refine ⟨[], ?_⟩
      unfold buildFilterClause
      rw [hb1]
      simp only []
      rw [hb2]
      simp only []
      rw [if_pos hlen]
    · rw [← h2, ← hv1, ← hv2, hn1 he1, hn2 he2]
      rfl
  · rw [if_neg hlen] at h
    simp only [Except.ok.injEq, Prod.mk.injEq] at h
    obtain ⟨h1, h2⟩ := h
    subst h1
    constructor
    · refine ⟨b1 ++ b2, ?_⟩
      unfold buildFilterClause
      rw [hb1]
      simp only []
      rw [hb2]
      simp only []
      rw [if_neg hlen]
    · rw [← h2, ← hv1, ← hv2]

/-- C1 (amended).  The SQL text produced by the filter compiler depends
only on the blanked skeleton of the filters (columns, operators, logic,
and for `IN`-lists only the element count): two successful runs whose
filters differ only in condition values — same blanked skeletons, which
for `IN` values includes the list length — produce identical SQL text.
Every condition value appears in the returned argument vector, in
condition order, and nowhere else. -/
theorem filter_sql_value_independence (cf1 cf2 : Option ConfigFilter)
    (rf1 rf2 : Option Filter) (s : ℕ) (sql1 sql2 : String)
    (args1 args2 : List GoValue)
    (hbc : blankOptConfig cf1 = blankOptConfig cf2)
    (hbr : blankOptFilter rf1 = blankOptFilter rf2)
    (h1 : buildFilterClause cf1 rf1 s = Except.ok (sql1, args1))
    (h2 : buildFilterClause cf2 rf2 s = Except.ok (sql2, args2)) :
    sql1 = sql2 ∧ args1 = optConfigValues cf1 ++ optFilterValues rf1 ∧
      args2 = optConfigValues cf2 ++ optFilterValues rf2 := by
  obtain ⟨⟨b1, hb1⟩, hv1⟩ := buildFilterClause_blank cf1 rf1 s sql1 args1 h1
  obtain ⟨⟨b2, hb2⟩, hv2⟩ := buildFilterClause_blank cf2 rf2 s sql2 args2 h2
  rw [hbc, hbr] at hb1
  rw [hb2] at hb1
  simp only [Except.ok.injEq, Prod.mk.injEq] at hb1
  exact ⟨hb1.1.symm, hv1, hv2⟩

/-- Counterexample to C1 as stated: two runs that differ only in the
condition value (an `IN` list of one value versus two) produce different
SQL text, so the value does influence the SQL and the two runs are not
textually identical. -/
theorem filter_sql_value_independence_counterexample :
    buildFilterClause none
      (some ⟨[⟨"a", "IN", gList [gStr "x"]⟩], ""⟩) 3 =
      Except.ok (" WHERE (\"a\" IN ($3))", [gStr "x"]) ∧
    buildFilterClause none
      (some ⟨[⟨"a", "IN", gList [gStr "x", gStr "y"]⟩], ""⟩) 3 =
      Except.ok (" WHERE (\"a\" IN ($3, $4))", [gStr "x", gStr "y"]) ∧
    (" WHERE (\"a\" IN ($3))" : String) ≠ " WHERE (\"a\" IN ($3, $4))" := by
  refine ⟨rfl, rfl, ?_⟩
  decide

/-- Witness for the amended C1: two one-condition filters equal except for
the scalar condition value compile to the same SQL; each argument vector
is exactly the condition value. -/
theorem filter_sql_value_independence_witness :
    " WHERE (\"product\" = $5)" = " WHERE (\"product\" = $5)" ∧
    [gStr "alpha"] = optConfigValues none ++
      optFilterValues (some ⟨[⟨"product", "=", gStr "alpha"⟩], ""⟩) ∧
    [gStr "omega"] = optConfigValues none ++
      optFilterValues (some ⟨[⟨"product", "=", gStr "omega"⟩], ""⟩) :=
  filter_sql_value_independence none none
    (some ⟨[⟨"product", "=", gStr "alpha"⟩], ""⟩)
    (some ⟨[⟨"product", "=", gStr "omega"⟩], ""⟩) 5
    " WHERE (\"product\" = $5)" " WHERE (\"product\" = $5)"
    [gStr "alpha"] [gStr "omega"] rfl rfl (by rfl) (by rfl)

/-- C10.  With an empty id list, or with no configured id column, the
fetch returns an empty document map and no error, and issues no database
query — for every database oracle. -/
theorem fetchDocumentsByIDs_empty_cases
    (db : String → List String → Except String (List (String × String)))
    (table : TableSource) (ids : List String)
    (h : ids = [] ∨ table.idColumn = "") :
    fetchDocumentsByIDs db table ids = Except.ok ([], []) := by
  unfold fetchDocumentsByIDs
  rcases h with h | h
  · rw [if_pos (by rw [h]; rfl)]
  · by_cases hids : ids.length = 0
    · rw [if_pos hids]
    · rw [if_neg hids, if_pos h]

/-- Witness for C10: both early-return cases at concrete inputs, against
an oracle that would fail if it were ever consulted. -/
theorem fetchDocumentsByIDs_empty_cases_witness :
    fetchDocumentsByIDs (fun _ _ => Except.error ("db consulted"))
      ⟨"docs", "content", "embedding", "id", none⟩ [] = Except.ok ([], []) ∧
    fetchDocumentsByIDs (fun _ _ => Except.error ("db consulted"))
      ⟨"docs", "content", "embedding", "", none⟩ ["7"] = Except.ok ([], []) :=
  ⟨fetchDocumentsByIDs_empty_cases _ _ _ (Or.inl rfl),
   fetchDocumentsByIDs_empty_cases _ _ _ (Or.inr rfl)⟩

theorem docTokens_toContextDoc (r : SearchResult) :
    docTokens (toContextDoc r) = estTokens r := rfl

theorem truncSpec_tokens_le (remaining : ℕ) (r : SearchResult) :
    docTokens (truncSpec remaining r) ≤ remaining := by
  unfold docTokens truncSpec
  have hpfx : (r.content.data.take (min r.content.length (remaining * 4))).length ≤
      remaining * 4 := by
    rw [List.length_take]
    omega
  set pfx := r.content.data.take (min r.content.length (remaining * 4)) with hpfxdef
  have hcut : (if lastIndexDS pfx > 0 then pfx.take ((lastIndexDS pfx).toNat + 1) else pfx).length ≤
      remaining * 4 := by
    split
    · rw [List.length_take]
      omega
    · exact hpfx
  set cut := if lastIndexDS pfx > 0 then pfx.take ((lastIndexDS pfx).toNat + 1) else pfx
  have hlen : ((⟨cut⟩ : String) ++ "...").length = cut.length + 3 := by
    rw [String.length_append]
    rfl
  rw [hlen]
  omega

theorem buildContextGo_spec (budget : ℕ) (rs : List SearchResult) :
    ∀ total, total ≤ budget →
    ((buildContextGo budget total rs).map docTokens).sum ≤ budget - total ∧
    ∃ pre post, rs = pre ++ post ∧
      total + (pre.map estTokens).sum ≤ budget ∧
      ((post = [] ∧ buildContextGo budget total rs = pre.map toContextDoc) ∨
       (∃ r rest2, post = r :: rest2 ∧
         total + (pre.map estTokens).sum + estTokens r > budget ∧
         ((budget - (total + (pre.map estTokens).sum) > 100 ∧
            buildContextGo budget total rs =
              pre.map toContextDoc ++
                [truncSpec (budget - (total + (pre.map estTokens).sum)) r]) ∨
          (budget - (total + (pre.map estTokens).sum) ≤ 100 ∧
            buildContextGo budget total rs = pre.map toContextDoc)))) := by
  induction rs with
  | nil =>
    intro total htot
    refine ⟨by simp [buildContextGo], [], [], rfl, by simpa using htot, Or.inl ⟨rfl, rfl⟩⟩
  | cons r rest ih =>
    intro total htot
    by_cases hacc : total + estTokens r > budget
    · -- the next document does not fit
      by_cases hrem : budget - total > 100
      · have hdocs : buildContextGo budget total (r :: rest) =
            [truncSpec (budget - total) r] := by
          unfold buildContextGo
          rw [if_pos hacc, if_pos hrem]
          rfl
        refine ⟨?_, [], r :: rest, rfl, by simpa using htot, Or.inr ⟨r, rest, rfl, ?_, ?_⟩⟩
        · rw [hdocs]
          simp only [List.map_cons, List.map_nil, List.sum_cons, List.sum_nil]
          have := truncSpec_tokens_le (budget - total) r
          omega
        · simpa using hacc
        · exact Or.inl ⟨by simpa using hrem, by simpa using hdocs⟩
      · have hdocs : buildContextGo budget total (r :: rest) = [] := by
          unfold buildContextGo
          rw [if_pos hacc, if_neg hrem]
        refine ⟨by rw [hdocs]; simp, [], r :: rest, rfl, by simpa using htot,
          Or.inr ⟨r, rest, rfl, by simpa using hacc, Or.inr ⟨by simpa using hrem, by simpa using hdocs⟩⟩⟩
    · -- the document is accepted
      have hacc2 : total + estTokens r ≤ budget := by omega
      have hdocs : buildContextGo budget total (r :: rest) =
          toContextDoc r :: buildContextGo budget (total + estTokens r) rest := by
        conv_lhs => rw [buildContextGo]
        rw [if_neg hacc]
        rfl
      obtain ⟨hsum, pre, post, heq, hble, hdisj⟩ := ih (total + estTokens r) hacc2
      have harith : ∀ x : ℕ, total + ((r :: pre).map estTokens).sum + x =
          (total + estTokens r) + (pre.map estTokens).sum + x := by
        intro x
        simp only [List.map_cons, List.sum_cons]
        omega
      have harith0 : total + ((r :: pre).map estTokens).sum =
          (total + estTokens r) + (pre.map estTokens).sum := by
        simp only [List.map_cons, List.sum_cons]
        omega
      refine ⟨?_, r :: pre, post, by rw [List.cons_append, heq], by omega, ?_⟩
      · rw [hdocs]
        simp only [List.map_cons, List.sum_cons, docTokens_toContextDoc]
        omega
      · rcases hdisj with ⟨hp, hd⟩ | ⟨r2, rest2, hp, hover, hinner⟩
        · exact Or.inl ⟨hp, by rw [hdocs, hd]; rfl⟩
        · refine Or.inr ⟨r2, rest2, hp, by rw [harith0]; exact hover, ?_⟩
          rcases hinner with ⟨hgt, hd⟩ | ⟨hle, hd⟩
          · refine Or.inl ⟨by rw [harith0]; exact hgt, ?_⟩
            rw [hdocs, hd, harith0]
            rfl
          · refine Or.inr ⟨by rw [harith0]; exact hle, ?_⟩
            rw [hdocs, hd]
            rfl

/-- C3 (amended).  The context packer accepts documents in input order as
long as the running floor estimate `len/4` fits the budget; the total of
the floor estimates of the packed documents (truncated one included) never
exceeds the budget; every packed document except possibly the last is the
untruncated input; when the next document does not fit and more than 100
tokens remain, the last packed document is the next input cut to
`remaining·4` characters, cut at the last `". "` occurring at positive
offset in that prefix (inclusive of the period), with `"..."` appended.
(The original claim's ceiling estimate and its unconditional `". "` cut do
not hold of the code.) -/
theorem buildContext_spec (budget : ℕ) (rs : List SearchResult) :
    ((buildContext budget rs).map docTokens).sum ≤ budget ∧
    ∃ pre post, rs = pre ++ post ∧ (pre.map estTokens).sum ≤ budget ∧
      ((post = [] ∧ buildContext budget rs = pre.map toContextDoc) ∨
       (∃ r rest2, post = r :: rest2 ∧
         (pre.map estTokens).sum + estTokens r > budget ∧
         ((budget - (pre.map estTokens).sum > 100 ∧
            buildContext budget rs =
              pre.map toContextDoc ++
                [truncSpec (budget - (pre.map estTokens).sum) r]) ∨
          (budget - (pre.map estTokens).sum ≤ 100 ∧
            buildContext budget rs = pre.map toContextDoc)))) := by
  have h := buildContextGo_spec budget rs 0 (Nat.zero_le budget)
  simpa using h

set_option maxRecDepth 100000 in
/-- Counterexample to C3 as stated.  First, the ceiling-estimate budget
invariant fails: with budget 1 and one 5-character document the packer
accepts the document (floor estimate 1), and `⌈5/4⌉ = 2 > 1`.  Second, the
`". "` cut is not applied whenever an occurrence exists: with budget 101
and a document beginning `". "`, the 404-character prefix contains `". "`
at offset 0, yet the packed document keeps all 404 characters plus
`"..."` (length 407) instead of being cut to the period (length 4). -/
theorem buildContext_counterexample :
    (((buildContext 1 [⟨"", "aaaaa", 0⟩]).map docTokensCeil).sum = 2 ∧
      ¬(((buildContext 1 [⟨"", "aaaaa", 0⟩]).map docTokensCeil).sum ≤ 1)) ∧
    ((buildContext 101 [⟨"", ⟨'.' :: ' ' :: List.replicate 500 'a'⟩, 0⟩]).map
        (fun d => d.content.length) = [407] ∧
      lastIndexDS (('.' :: ' ' :: List.replicate 500 'a').take 404) = 0 ∧
      (407 : ℕ) ≠ 4) := by
  refine ⟨⟨?_, ?_⟩, ⟨?_, ?_, by decide⟩⟩
  · decide
  · decide
  · decide
  · decide

/-- C7 (code bug).  `buildSystemPrompt` returns the hard-coded default
prompt even when the pipeline configures a custom system prompt: at the
configuration of the repository's own test
`TestBuildSystemPrompt_CustomPrompt`, the built prompt is the default and
differs from the configured prompt, which the test requires to be
returned. -/
theorem buildSystemPrompt_ignores_config :
    buildSystemPrompt ⟨"test-pipeline",
        "You are Ellie, a custom assistant for pgEdge docs.", []⟩ =
      defaultRAGPrompt ∧
    defaultRAGPrompt ≠ "You are Ellie, a custom assistant for pgEdge docs." := by
  exact ⟨rfl, by decide⟩

theorem scoreOf_empty_query (lg : ℚ → ℚ) (idx : Index) (query : String)
    (hq : tokenFrequencies query = []) (p : String × BMDoc) :
    scoreOf lg idx query p = 0 := by
  unfold scoreOf scoreDocument
  rw [hq]
  rfl

/-- C5 (amended).  For every Go map enumeration of the indexed documents
(`order`, any permutation of the entries), the search returns results
that are sorted by score in descending order, are exactly results of
indexed documents with strictly positive BM25 score, and number
`min topN #positives`; when no truncation occurs the result is a
permutation of all positive-scoring documents; and in every case the
result is the first `topN` of a score-descending ordering of all the
positive-scoring documents (so truncation keeps a top-scoring,
duplicate-free selection).  The original claim's tie-breaking by
insertion order does not hold: ties are ordered by the map enumeration,
which Go randomizes, and `sort.Slice` is not stable. -/
theorem bm25_search_spec (lg : ℚ → ℚ) (idx : Index) (query : String)
    (topN : ℕ) (order : List (String × BMDoc))
    (hperm : order.Perm idx.docs) (htd : idx.totalDocs = idx.docs.length) :
    List.Pairwise (fun a b : SearchResult => b.score ≤ a.score)
      (searchOrdered lg idx query topN order) ∧
    (searchOrdered lg idx query topN order).length =
      min topN (idx.docs.filter
        (fun p => decide (0 < scoreOf lg idx query p))).length ∧
    (∀ r ∈ searchOrdered lg idx query topN order,
      ∃ p ∈ idx.docs, r = mkResult lg idx query p ∧ 0 < r.score) ∧
    ((idx.docs.filter (fun p => decide (0 < scoreOf lg idx query p))).length ≤ topN →
      (searchOrdered lg idx query topN order).Perm
        ((idx.docs.filter (fun p => decide (0 < scoreOf lg idx query p))).map
          (mkResult lg idx query))) ∧
    (∃ sorted : List SearchResult,
      sorted.Perm ((idx.docs.filter
        (fun p => decide (0 < scoreOf lg idx query p))).map
          (mkResult lg idx query)) ∧
      List.Pairwise (fun a b : SearchResult => b.score ≤ a.score) sorted ∧
      searchOrdered lg idx query topN order = sorted.take topN) := by
  unfold searchOrdered
  by_cases h0 : idx.totalDocs = 0
  · rw [if_pos h0]
    have hd : idx.docs = [] := by
      rw [← List.length_eq_zero, ← htd, h0]
    rw [hd]
    refine ⟨by simp, by simp, by simp, by simp, [], by simp, by simp, by simp⟩
  rw [if_neg h0]
  by_cases hq : (tokenFrequencies query).length = 0
  · rw [if_pos hq]
    have hqnil : tokenFrequencies query = [] := List.length_eq_zero.mp hq
    have hfalse : ∀ p : String × BMDoc,
        decide (0 < scoreOf lg idx query p) = false := by
      intro p
      rw [scoreOf_empty_query lg idx query hqnil p]
      decide
    have hfl : idx.docs.filter (fun p => decide (0 < scoreOf lg idx query p)) = [] := by
      rw [List.filter_eq_nil_iff]
      intro a _
      rw [hfalse a]
      simp
    rw [hfl]
    refine ⟨by simp, by simp, by simp, by simp, [], by simp, by simp, by simp⟩
  rw [if_neg hq]
  simp only []
  haveI htotal : IsTotal SearchResult (fun a b => b.score ≤ a.score) :=
    ⟨fun a b => le_total b.score a.score⟩
  haveI htrans : IsTrans SearchResult (fun a b => b.score ≤ a.score) :=
    ⟨fun _ _ _ hab hbc => le_trans hbc hab⟩
  have hpermf : (order.filter (fun p => decide (0 < scoreOf lg idx query p))).Perm
      (idx.docs.filter (fun p => decide (0 < scoreOf lg idx query p))) :=
    hperm.filter _
  have hscored : ((order.filter (fun p => decide (0 < scoreOf lg idx query p))).map
      (mkResult lg idx query)).Perm
      ((idx.docs.filter (fun p => decide (0 < scoreOf lg idx query p))).map
        (mkResult lg idx query)) := hpermf.map _
  have hsortperm := List.perm_insertionSort
    (fun a b : SearchResult => b.score ≤ a.score)
    ((order.filter (fun p => decide (0 < scoreOf lg idx query p))).map
      (mkResult lg idx query))
  have hsorted := List.sorted_insertionSort
    (fun a b : SearchResult => b.score ≤ a.score)
    ((order.filter (fun p => decide (0 < scoreOf lg idx query p))).map
      (mkResult lg idx query))
  refine ⟨?_, ?_, ?_, ?_, ?_⟩
  · exact List.Pairwise.sublist (List.take_sublist _ _) hsorted
  · rw [List.length_take, hsortperm.length_eq, hscored.length_eq, List.length_map]
  · intro r hr
    have hrs : r ∈ (order.filter (fun p => decide (0 < scoreOf lg idx query p))).map
        (mkResult lg idx query) :=
      (hsortperm.mem_iff).mp ((List.take_sublist _ _).subset hr)
    rw [List.mem_map] at hrs
    obtain ⟨p, hpmem, hpr⟩ := hrs
    rw [List.mem_filter] at hpmem
    refine ⟨p, hperm.subset hpmem.1, hpr.symm, ?_⟩
    rw [← hpr]
    have := hpmem.2
    rwa [decide_eq_true_eq] at this
  · intro hle
    rw [List.take_of_length_le]
    · exact hsortperm.trans hscored
    · rw [hsortperm.length_eq, hscored.length_eq, List.length_map]
      exact hle
  · exact ⟨_, hsortperm.trans hscored, hsorted, rfl⟩

/-- Counterexample to C5 as stated.  Index `"foo bar"` then `"foo baz"`
(insertion order `"1", "2"`); both score exactly `6/5` on query `"foo"` —
a genuine tie, the two float computations being identical.  The reversed
map enumeration is a legitimate Go map iteration order, and with it the
search returns the tie as `["2", "1"]`, not in insertion order: the
output order is not determined by insertion order. -/
theorem bm25_search_counterexample :
    (addDocument (addDocument NewIndex "1" "foo bar") "2" "foo baz").docs.map
        Prod.fst = ["1", "2"] ∧
    ((addDocument (addDocument NewIndex "1" "foo bar") "2" "foo baz").docs.reverse).Perm
      (addDocument (addDocument NewIndex "1" "foo bar") "2" "foo baz").docs ∧
    (searchOrdered id (addDocument (addDocument NewIndex "1" "foo bar") "2" "foo baz")
        "foo" 10
        (addDocument (addDocument NewIndex "1" "foo bar") "2" "foo baz").docs.reverse).map
      (fun r => r.id) = ["2", "1"] ∧
    (searchOrdered id (addDocument (addDocument NewIndex "1" "foo bar") "2" "foo baz")
        "foo" 10
        (addDocument (addDocument NewIndex "1" "foo bar") "2" "foo baz").docs.reverse).map
      (fun r => r.score) = [6/5, 6/5] := by
  have hq : tokenFrequencies "foo" = [("foo", 1)] := by decide
  have hs1 : scoreOf id (addDocument (addDocument NewIndex "1" "foo bar") "2" "foo baz")
      "foo" ("1", ⟨"1", "foo bar", 2, [("foo", 1), ("bar", 1)]⟩) =
      bmScore id (bmParams (addDocument (addDocument NewIndex "1" "foo bar") "2" "foo baz"))
        1 2 2 := by
    unfold scoreOf scoreDocument
    rw [hq]
    simp only [List.foldl]
    rw [show (assocGet [("foo", (1 : ℕ)), ("bar", 1)] "foo").getD 0 = 1 from by decide,
      show (assocGet
        (addDocument (addDocument NewIndex "1" "foo bar") "2" "foo baz").docFreqs
        "foo").getD 0 = 2 from by decide]
    simp
  have hs2 : scoreOf id (addDocument (addDocument NewIndex "1" "foo bar") "2" "foo baz")
      "foo" ("2", ⟨"2", "foo baz", 2, [("foo", 1), ("baz", 1)]⟩) =
      bmScore id (bmParams (addDocument (addDocument NewIndex "1" "foo bar") "2" "foo baz"))
        1 2 2 := by
    unfold scoreOf scoreDocument
    rw [hq]
    simp only [List.foldl]
    rw [show (assocGet [("foo", (1 : ℕ)), ("baz", 1)] "foo").getD 0 = 1 from by decide,
      show (assocGet
        (addDocument (addDocument NewIndex "1" "foo bar") "2" "foo baz").docFreqs
        "foo").getD 0 = 2 from by decide]
    simp
  have hval : bmScore id
      (bmParams (addDocument (addDocument NewIndex "1" "foo bar") "2" "foo baz")) 1 2 2 =
      6/5 := by
    unfold bmScore IDF bmParams
    rw [show (addDocument (addDocument NewIndex "1" "foo bar") "2" "foo baz").totalDocs = 2
        from by decide,
      show (addDocument (addDocument NewIndex "1" "foo bar") "2" "foo baz").totalLen = 4
        from by decide]
    norm_num
  have hsc1 := hs1.trans hval
  have hsc2 := hs2.trans hval
  have hf1 : decide (0 < scoreOf id
      (addDocument (addDocument NewIndex "1" "foo bar") "2" "foo baz")
      "foo" ("1", ⟨"1", "foo bar", 2, [("foo", 1), ("bar", 1)]⟩)) = true := by
    rw [hsc1]
    simp only [decide_eq_true_eq]
    norm_num
  have hf2 : decide (0 < scoreOf id
      (addDocument (addDocument NewIndex "1" "foo bar") "2" "foo baz")
      "foo" ("2", ⟨"2", "foo baz", 2, [("foo", 1), ("baz", 1)]⟩)) = true := by
    rw [hsc2]
    simp only [decide_eq_true_eq]
    norm_num
  have hr1 : mkResult id (addDocument (addDocument NewIndex "1" "foo bar") "2" "foo baz")
      "foo" ("1", ⟨"1", "foo bar", 2, [("foo", 1), ("bar", 1)]⟩) =
      (⟨"1", "foo bar", 6/5⟩ : SearchResult) := by
    unfold mkResult
    rw [hsc1]
  have hr2 : mkResult id (addDocument (addDocument NewIndex "1" "foo bar") "2" "foo baz")
      "foo" ("2", ⟨"2", "foo baz", 2, [("foo", 1), ("baz", 1)]⟩) =
      (⟨"2", "foo baz", 6/5⟩ : SearchResult) := by
    unfold mkResult
    rw [hsc2]
  have hsearch : searchOrdered id
      (addDocument (addDocument NewIndex "1" "foo bar") "2" "foo baz") "foo" 10
      (addDocument (addDocument NewIndex "1" "foo bar") "2" "foo baz").docs.reverse =
      [⟨"2", "foo baz", 6/5⟩, ⟨"1", "foo bar", 6/5⟩] := by
    unfold searchOrdered
    rw [if_neg (by decide), if_neg (by decide)]
    rw [show (addDocument (addDocument NewIndex "1" "foo bar") "2" "foo baz").docs.reverse =
        [("2", ⟨"2", "foo baz", 2, [("foo", 1), ("baz", 1)]⟩),
         ("1", ⟨"1", "foo bar", 2, [("foo", 1), ("bar", 1)]⟩)] from by decide]
    simp only [List.filter_cons, List.filter_nil, hf2, hf1, if_true, List.map_cons,
      List.map_nil, hr2, hr1, List.insertionSort, List.orderedInsert]
    rw [if_pos (le_refl _)]
    rfl
  exact ⟨by decide, List.reverse_perm _, by rw [hsearch]; rfl, by rw [hsearch]; rfl⟩

/-- Witness for the amended C5 at a concrete two-document index, query
`"foo"`, and the insertion-order enumeration, with `topN = 1` so that the
two positive-scoring documents are truncated to a top-scoring one. -/
theorem bm25_search_spec_witness :
    List.Pairwise (fun a b : SearchResult => b.score ≤ a.score)
      (searchOrdered id (addDocument (addDocument NewIndex "1" "foo bar") "2" "foo baz")
        "foo" 1 (addDocument (addDocument NewIndex "1" "foo bar") "2" "foo baz").docs) ∧
    (searchOrdered id (addDocument (addDocument NewIndex "1" "foo bar") "2" "foo baz")
        "foo" 1 (addDocument (addDocument NewIndex "1" "foo bar") "2" "foo baz").docs).length =
      min 1 ((addDocument (addDocument NewIndex "1" "foo bar") "2" "foo baz").docs.filter
        (fun p => decide (0 < scoreOf id
          (addDocument (addDocument NewIndex "1" "foo bar") "2" "foo baz") "foo" p))).length ∧
    (∀ r ∈ searchOrdered id (addDocument (addDocument NewIndex "1" "foo bar") "2" "foo baz")
        "foo" 1 (addDocument (addDocument NewIndex "1" "foo bar") "2" "foo baz").docs,
      ∃ p ∈ (addDocument (addDocument NewIndex "1" "foo bar") "2" "foo baz").docs,
        r = mkResult id (addDocument (addDocument NewIndex "1" "foo bar") "2" "foo baz") "foo" p ∧
          0 < r.score) ∧
    (((addDocument (addDocument NewIndex "1" "foo bar") "2" "foo baz").docs.filter
        (fun p => decide (0 < scoreOf id
          (addDocument (addDocument NewIndex "1" "foo bar") "2" "foo baz") "foo" p))).length ≤ 1 →
      (searchOrdered id (addDocument (addDocument NewIndex "1" "foo bar") "2" "foo baz")
        "foo" 1 (addDocument (addDocument NewIndex "1" "foo bar") "2" "foo baz").docs).Perm
        (((addDocument (addDocument NewIndex "1" "foo bar") "2" "foo baz").docs.filter
          (fun p => decide (0 < scoreOf id
            (addDocument (addDocument NewIndex "1" "foo bar") "2" "foo baz") "foo" p))).map
          (mkResult id (addDocument (addDocument NewIndex "1" "foo bar") "2" "foo baz") "foo"))) ∧
    (∃ sorted : List SearchResult,
      sorted.Perm (((addDocument (addDocument NewIndex "1" "foo bar") "2" "foo baz").docs.filter
        (fun p => decide (0 < scoreOf id
          (addDocument (addDocument NewIndex "1" "foo bar") "2" "foo baz") "foo" p))).map
          (mkResult id (addDocument (addDocument NewIndex "1" "foo bar") "2" "foo baz") "foo")) ∧
      List.Pairwise (fun a b : SearchResult => b.score ≤ a.score) sorted ∧
      searchOrdered id (addDocument (addDocument NewIndex "1" "foo bar") "2" "foo baz")
        "foo" 1 (addDocument (addDocument NewIndex "1" "foo bar") "2" "foo baz").docs =
        sorted.take 1) :=
  bm25_search_spec id (addDocument (addDocument NewIndex "1" "foo bar") "2" "foo baz")
    "foo" 1 (addDocument (addDocument NewIndex "1" "foo bar") "2" "foo baz").docs
    (List.Perm.refl _) (by decide)

/-! ### Reciprocal rank fusion and hybrid search (rrf.go) -/

theorem assocGet_set_self {α : Type} (m : List (String × α)) (k : String) (v : α) :
    assocGet (assocSet m k v) k = some v := by
  induction m with
  | nil => simp [assocSet, assocGet]
  | cons p rest ih =>
    obtain ⟨k0, v0⟩ := p
    by_cases h : k0 = k
    · simp [assocSet, assocGet, h]
    · simp [assocSet, assocGet, h, ih]

theorem assocGet_set_ne {α : Type} (m : List (String × α)) (k k' : String) (v : α)
    (h : k' ≠ k) : assocGet (assocSet m k v) k' = assocGet m k' := by
  induction m with
  | nil => simp [assocSet, assocGet, Ne.symm h]
  | cons p rest ih =>
    obtain ⟨k0, v0⟩ := p
    by_cases h0 : k0 = k
    · simp [assocSet, assocGet, h0, Ne.symm h]
    · simp [assocSet, assocGet, h0, ih]

theorem assocSet_keys_mem {α : Type} (m : List (String × α)) (k : String) (v : α)
    (h : k ∈ m.map Prod.fst) : (assocSet m k v).map Prod.fst = m.map Prod.fst := by
  induction m with
  | nil => simp at h
  | cons p rest ih =>
    obtain ⟨k0, v0⟩ := p
    by_cases h0 : k0 = k
    · simp [assocSet, h0]
    · simp only [List.map_cons, List.mem_cons] at h
      have hm : k ∈ rest.map Prod.fst := by
        rcases h with h1 | h1
        · exact absurd h1.symm h0
        · exact h1
      simp [assocSet, h0, ih hm]

theorem assocSet_keys_new {α : Type} (m : List (String × α)) (k : String) (v : α)
    (h : k ∉ m.map Prod.fst) : (assocSet m k v).map Prod.fst = m.map Prod.fst ++ [k] := by
  induction m with
  | nil => simp [assocSet]
  | cons p rest ih =>
    obtain ⟨k0, v0⟩ := p
    simp only [List.map_cons, List.mem_cons] at h
    push_neg at h
    simp [assocSet, Ne.symm h.1, ih h.2]

theorem assocGet_eq_none {α : Type} (m : List (String × α)) (k : String)
    (h : k ∉ m.map Prod.fst) : assocGet m k = none := by
  induction m with
  | nil => rfl
  | cons p rest ih =>
    obtain ⟨k0, v0⟩ := p
    simp only [List.map_cons, List.mem_cons] at h
    push_neg at h
    simp [assocGet, Ne.symm h.1, ih h.2]

theorem assocGet_of_mem {α : Type} (m : List (String × α)) (k : String) (v : α)
    (hnd : (m.map Prod.fst).Nodup) (h : (k, v) ∈ m) : assocGet m k = some v := by
  induction m with
  | nil => simp at h
  | cons p rest ih =>
    obtain ⟨k0, v0⟩ := p
    simp only [List.map_cons, List.nodup_cons] at hnd
    rcases List.mem_cons.mp h with h1 | h1
    · cases h1
      simp [assocGet]
    · have hne : k0 ≠ k := by
        intro he
        subst he
        exact hnd.1 (List.mem_map.mpr ⟨(k0, v), h1, rfl⟩)
      simp [assocGet, hne, ih hnd.2 h1]

theorem mem_of_assocGet {α : Type} (m : List (String × α)) (k : String) (v : α)
    (h : assocGet m k = some v) : (k, v) ∈ m := by
  induction m with
  | nil => simp [assocGet] at h
  | cons p rest ih =>
    obtain ⟨k0, v0⟩ := p
    by_cases h0 : k0 = k
    · subst h0
      simp [assocGet] at h
      subst h
      exact List.mem_cons_self _ _
    · simp [assocGet, h0] at h
      exact List.mem_cons_of_mem _ (ih h)

theorem mem_assocSet {α : Type} (m : List (String × α)) (k : String) (v : α)
    (p : String × α) (h : p ∈ assocSet m k v) : p ∈ m ∨ p = (k, v) := by
  induction m with
  | nil =>
    simp [assocSet] at h
    right
    exact h
  | cons q rest ih =>
    obtain ⟨k0, v0⟩ := q
    by_cases h0 : k0 = k
    · simp [assocSet, h0] at h
      rcases h with h | h
      · right
        exact h
      · left
        exact List.mem_cons_of_mem _ h
    · simp only [assocSet, if_neg h0, List.mem_cons] at h
      rcases h with h | h
      · left
        rw [h]
        exact List.mem_cons_self _ _
      · rcases ih h with h1 | h1
        · left
          exact List.mem_cons_of_mem _ h1
        · right
          exact h1

theorem rankScores_not_mem (k : ℚ) (rs : List SearchResult) (startRank : ℕ)
    (key : String) (h : key ∉ rs.map rrfKey) : rankScores k rs startRank key = 0 := by
  induction rs generalizing startRank with
  | nil => rfl
  | cons r rest ih =>
    simp only [List.map_cons, List.mem_cons] at h
    push_neg at h
    simp [rankScores, Ne.symm h.1, ih _ h.2]

theorem rrfStep_get_ne (isVec : Bool) (k : ℚ) (m : List (String × RRFResult))
    (rank : ℕ) (r : SearchResult) (key : String) (h : rrfKey r ≠ key) :
    assocGet (rrfStep isVec k m rank r) key = assocGet m key := by
  unfold rrfStep
  cases assocGet m (rrfKey r) with
  | some ex => exact assocGet_set_ne _ _ _ _ (Ne.symm h)
  | none => exact assocGet_set_ne _ _ _ _ (Ne.symm h)

theorem rrfProcess_get (isVec : Bool) (k : ℚ) (rs : List SearchResult)
    (startRank : ℕ) (m : List (String × RRFResult)) (key : String) :
    (∀ ex, assocGet m key = some ex →
      ∃ e, assocGet (rrfProcess isVec k m rs startRank) key = some e ∧
        e.id = ex.id ∧ e.content = ex.content ∧
        e.score = ex.score + rankScores k rs startRank key) ∧
    (assocGet m key = none → key ∉ rs.map rrfKey →
      assocGet (rrfProcess isVec k m rs startRank) key = none) ∧
    (assocGet m key = none → key ∈ rs.map rrfKey →
      ∃ e, assocGet (rrfProcess isVec k m rs startRank) key = some e ∧
        (∃ s ∈ rs, rrfKey s = key ∧ e.id = s.id ∧ e.content = s.content) ∧
        e.score = rankScores k rs startRank key) := by
  induction rs generalizing m startRank with
  | nil =>
    refine ⟨?_, ?_, ?_⟩
    · intro ex hex
      exact ⟨ex, hex, rfl, rfl, by simp [rrfProcess, rankScores]⟩
    · intro hnone _
      exact hnone
    · intro _ hmem
      simp at hmem
  | cons r rest ih =>
    by_cases hkr : rrfKey r = key
    · cases hget : assocGet m key with
      | some ex =>
        have hstep : assocGet (rrfStep isVec k m startRank r) key =
            some ⟨ex.id, ex.content, ex.score + 1 / (k + (startRank : ℚ)),
              if isVec then startRank else ex.vecRank,
              if isVec then ex.bm25Rank else startRank⟩ := by
          unfold rrfStep
          rw [hkr, hget]
          simp only []
          exact assocGet_set_self _ _ _
        refine ⟨?_, ?_, ?_⟩
        · intro ex' hex'
          injection hex' with hx
          subst hx
          obtain ⟨e, he, hid, hc, hs⟩ := (ih (startRank + 1) _).1 _ hstep
          refine ⟨e, by simpa [rrfProcess] using he, hid, hc, ?_⟩
          rw [hs]
          simp [rankScores, hkr, add_assoc]
        · intro hnone _
          simp at hnone
        · intro hnone _
          simp at hnone
      | none =>
        have hstep : assocGet (rrfStep isVec k m startRank r) key =
            some ⟨r.id, r.content, 1 / (k + (startRank : ℚ)),
              if isVec then startRank else 0,
              if isVec then 0 else startRank⟩ := by
          unfold rrfStep
          rw [hkr, hget]
          simp only []
          exact assocGet_set_self _ _ _
        refine ⟨?_, ?_, ?_⟩
        · intro ex' hex'
          simp at hex'
        · intro _ hmem
          exact absurd (show key ∈ (r :: rest).map rrfKey by simp [hkr]) hmem
        · intro _ _
          obtain ⟨e, he, hid, hc, hs⟩ := (ih (startRank + 1) _).1 _ hstep
          refine ⟨e, by simpa [rrfProcess] using he, ⟨r, List.mem_cons_self _ _, hkr, hid, hc⟩, ?_⟩
          rw [hs]
          simp [rankScores, hkr]
    · have hstep := rrfStep_get_ne isVec k m startRank r key hkr
      have hsc : rankScores k (r :: rest) startRank key =
          rankScores k rest (startRank + 1) key := by
        simp [rankScores, hkr]
      refine ⟨?_, ?_, ?_⟩
      · intro ex hex
        obtain ⟨e, he, hid, hc, hs⟩ := (ih (startRank + 1) _).1 ex (hstep.trans hex)
        refine ⟨e, by simpa [rrfProcess] using he, hid, hc, ?_⟩
        rw [hs, hsc]
      · intro hnone hmem
        simp only [List.map_cons, List.mem_cons] at hmem
        push_neg at hmem
        have := (ih (startRank + 1) _).2.1 (hstep.trans hnone) hmem.2
        simpa [rrfProcess] using this
      · intro hnone hmem
        simp only [List.map_cons, List.mem_cons] at hmem
        rcases hmem with h1 | h1
        · exact absurd h1.symm hkr
        · obtain ⟨e, he, ⟨s, hsmem, hsk, hid, hc⟩, hs⟩ :=
            (ih (startRank + 1) _).2.2 (hstep.trans hnone) h1
          refine ⟨e, by simpa [rrfProcess] using he,
            ⟨s, List.mem_cons_of_mem _ hsmem, hsk, hid, hc⟩, ?_⟩
          rw [hs, hsc]

theorem assocGet_isSome_of_mem {α : Type} (m : List (String × α)) (k : String)
    (h : k ∈ m.map Prod.fst) : ∃ v, assocGet m k = some v := by
  induction m with
  | nil => simp at h
  | cons p rest ih =>
    obtain ⟨k0, v0⟩ := p
    by_cases h0 : k0 = k
    · exact ⟨v0, by simp [assocGet, h0]⟩
    · simp only [List.map_cons, List.mem_cons] at h
      rcases h with h1 | h1
      · exact absurd h1.symm h0
      · obtain ⟨v, hv⟩ := ih h1
        exact ⟨v, by simp [assocGet, h0, hv]⟩

theorem rrfStep_keys (isVec : Bool) (k : ℚ) (m : List (String × RRFResult))
    (rank : ℕ) (r : SearchResult)
    (hnd : (m.map Prod.fst).Nodup)
    (hinv : ∀ p ∈ m, p.1 = entryKey p.2) :
    ((rrfStep isVec k m rank r).map Prod.fst).Nodup ∧
    (∀ key, key ∈ (rrfStep isVec k m rank r).map Prod.fst ↔
      key ∈ m.map Prod.fst ∨ key = rrfKey r) ∧
    (∀ p ∈ rrfStep isVec k m rank r, p.1 = entryKey p.2) := by
  by_cases hmem : rrfKey r ∈ m.map Prod.fst
  · obtain ⟨ex, hex⟩ := assocGet_isSome_of_mem m (rrfKey r) hmem
    have hstep : rrfStep isVec k m rank r =
        assocSet m (rrfKey r)
          ⟨ex.id, ex.content, ex.score + 1 / (k + (rank : ℚ)),
           if isVec then rank else ex.vecRank,
           if isVec then ex.bm25Rank else rank⟩ := by
      unfold rrfStep
      rw [hex]
    have hkeys := assocSet_keys_mem m (rrfKey r)
      (⟨ex.id, ex.content, ex.score + 1 / (k + (rank : ℚ)),
        if isVec then rank else ex.vecRank,
        if isVec then ex.bm25Rank else rank⟩ : RRFResult) hmem
    have hexkey : rrfKey r = entryKey ex :=
      hinv (rrfKey r, ex) (mem_of_assocGet m _ ex hex)
    refine ⟨?_, ?_, ?_⟩
    · rw [hstep, hkeys]
      exact hnd
    · intro key
      rw [hstep, hkeys]
      constructor
      · exact Or.inl
      · rintro (h | h)
        · exact h
        · rw [h]
          exact hmem
    · intro p hp
      rw [hstep] at hp
      rcases mem_assocSet m _ _ p hp with h | h
      · exact hinv p h
      · rw [h]
        simpa [entryKey] using hexkey
  · have hget : assocGet m (rrfKey r) = none := assocGet_eq_none m _ hmem
    have hstep : rrfStep isVec k m rank r =
        assocSet m (rrfKey r)
          ⟨r.id, r.content, 1 / (k + (rank : ℚ)),
           if isVec then rank else 0,
           if isVec then 0 else rank⟩ := by
      unfold rrfStep
      rw [hget]
    have hkeys := assocSet_keys_new m (rrfKey r)
      (⟨r.id, r.content, 1 / (k + (rank : ℚ)),
        if isVec then rank else 0,
        if isVec then 0 else rank⟩ : RRFResult) hmem
    refine ⟨?_, ?_, ?_⟩
    · rw [hstep, hkeys]
      exact List.Nodup.append hnd (List.nodup_singleton _)
        (List.disjoint_singleton.mpr hmem)
    · intro key
      rw [hstep, hkeys]
      simp
    · intro p hp
      rw [hstep] at hp
      rcases mem_assocSet m _ _ p hp with h | h
      · exact hinv p h
      · rw [h]
        simp [entryKey, rrfKey]

theorem rrfProcess_keys (isVec : Bool) (k : ℚ) (rs : List SearchResult)
    (startRank : ℕ) (m : List (String × RRFResult))
    (hnd : (m.map Prod.fst).Nodup)
    (hinv : ∀ p ∈ m, p.1 = entryKey p.2) :
    ((rrfProcess isVec k m rs startRank).map Prod.fst).Nodup ∧
    (∀ key, key ∈ (rrfProcess isVec k m rs startRank).map Prod.fst ↔
      key ∈ m.map Prod.fst ∨ key ∈ rs.map rrfKey) ∧
    (∀ p ∈ rrfProcess isVec k m rs startRank, p.1 = entryKey p.2) := by
  induction rs generalizing m startRank with
  | nil => exact ⟨hnd, fun key => by simp [rrfProcess], hinv⟩
  | cons r rest ih =>
    obtain ⟨snd, smem, sinv⟩ := rrfStep_keys isVec k m startRank r hnd hinv
    obtain ⟨pnd, pmem, pinv⟩ := ih (startRank + 1) (rrfStep isVec k m startRank r) snd sinv
    refine ⟨by simpa [rrfProcess] using pnd, fun key => ?_, ?_⟩
    · have hunfold : rrfProcess isVec k m (r :: rest) startRank =
          rrfProcess isVec k (rrfStep isVec k m startRank r) rest (startRank + 1) := rfl
      rw [hunfold, pmem key, smem key]
      simp only [List.map_cons, List.mem_cons]
      tauto
    · intro p hp
      exact pinv p (by simpa [rrfProcess] using hp)

theorem rrfMap_spec (vec bm : List SearchResult) (k : ℚ) :
    ((rrfMap vec bm k).map Prod.fst).Nodup ∧
    (∀ key, key ∈ (rrfMap vec bm k).map Prod.fst ↔ key ∈ (vec ++ bm).map rrfKey) ∧
    (∀ p ∈ rrfMap vec bm k,
      p.1 = entryKey p.2 ∧
      (∃ s ∈ vec ++ bm, rrfKey s = p.1 ∧ p.2.id = s.id ∧ p.2.content = s.content) ∧
      p.2.score = specRRFScore (effectiveK k) vec bm p.1) := by
  obtain ⟨nd1, mem1, inv1⟩ := rrfProcess_keys true (effectiveK k) vec 1 []
    (by simp) (by simp)
  obtain ⟨nd2, mem2, inv2⟩ := rrfProcess_keys false (effectiveK k) bm 1
    (rrfProcess true (effectiveK k) [] vec 1) nd1 inv1
  refine ⟨nd2, fun key => ?_, fun p hp => ?_⟩
  · show key ∈ (rrfProcess false (effectiveK k)
      (rrfProcess true (effectiveK k) [] vec 1) bm 1).map Prod.fst ↔ _
    rw [mem2 key, mem1 key]
    simp
  · obtain ⟨key, e⟩ := p
    show key = entryKey e ∧
      (∃ s ∈ vec ++ bm, rrfKey s = key ∧ e.id = s.id ∧ e.content = s.content) ∧
      e.score = specRRFScore (effectiveK k) vec bm key
    have hp2 : (key, e) ∈ rrfProcess false (effectiveK k)
        (rrfProcess true (effectiveK k) [] vec 1) bm 1 := hp
    have hkey : key = entryKey e := inv2 (key, e) hp2
    have hget2 : assocGet (rrfProcess false (effectiveK k)
        (rrfProcess true (effectiveK k) [] vec 1) bm 1) key = some e :=
      assocGet_of_mem _ key e nd2 hp2
    have get2 := rrfProcess_get false (effectiveK k) bm 1
      (rrfProcess true (effectiveK k) [] vec 1) key
    cases hget1 : assocGet (rrfProcess true (effectiveK k) [] vec 1) key with
    | some ex =>
      obtain ⟨eq2, heq2, hid2, hc2, hs2⟩ := get2.1 ex hget1
      rw [heq2] at hget2
      injection hget2 with he
      subst he
      have hkeyvec : key ∈ vec.map rrfKey := by
        have hmm : key ∈ (rrfProcess true (effectiveK k) [] vec 1).map Prod.fst :=
          List.mem_map.mpr ⟨(key, ex), mem_of_assocGet _ key ex hget1, rfl⟩
        rcases (mem1 key).mp hmm with h | h
        · simp at h
        · exact h
      have get1 := rrfProcess_get true (effectiveK k) vec 1 [] key
      obtain ⟨e1, he1, ⟨s, hsmem, hsk, hsid, hsc⟩, hs1⟩ := get1.2.2 rfl hkeyvec
      rw [he1] at hget1
      injection hget1 with he1e
      subst he1e
      refine ⟨hkey, ⟨s, List.mem_append_left _ hsmem, hsk,
        hid2.trans hsid, hc2.trans hsc⟩, ?_⟩
      rw [hs2, hs1]
      rfl
    | none =>
      by_cases hbm : key ∈ bm.map rrfKey
      · obtain ⟨eq2, heq2, ⟨s, hsmem, hsk, hsid, hsc⟩, hs2⟩ := get2.2.2 hget1 hbm
        rw [heq2] at hget2
        injection hget2 with he
        subst he
        have hnotvec : key ∉ vec.map rrfKey := by
          intro hv
          have hmm : key ∈ (rrfProcess true (effectiveK k) [] vec 1).map Prod.fst :=
            (mem1 key).mpr (Or.inr hv)
          obtain ⟨v, hv2⟩ := assocGet_isSome_of_mem _ key hmm
          rw [hv2] at hget1
          exact Option.noConfusion hget1
        refine ⟨hkey, ⟨s, List.mem_append_right _ hsmem, hsk, hsid, hsc⟩, ?_⟩
        rw [hs2]
        unfold specRRFScore
        rw [rankScores_not_mem _ _ _ _ hnotvec, zero_add]
      · exfalso
        have hn := get2.2.1 hget1 hbm
        rw [hn] at hget2
        exact Option.noConfusion hget2

/-- C6.  For every pair of ranked lists, every constant `k`, and every Go
map enumeration `order` of the accumulated fusion map: the fused output
is sorted by score descending; every output entry carries the id and
content of an input occurrence and the accumulated score
`Σ 1/(k + rank_i)` (1-indexed ranks, `k` defaulting to 60 when
non-positive) of its key, documents being keyed by id when non-empty and
by content otherwise; the output has exactly one entry per distinct key
of the inputs; and `HybridSearch` is that fused list truncated to `topN`
(so its length is `min topN` the number of distinct keys). -/
theorem rrf_hybrid_spec (vec bm : List SearchResult) (k : ℚ) (topN : ℕ)
    (order : List (String × RRFResult))
    (hperm : order.Perm (rrfMap vec bm k)) :
    List.Pairwise (fun a b : RRFResult => b.score ≤ a.score)
      (reciprocalRankFusionOrdered order) ∧
    (∀ e ∈ reciprocalRankFusionOrdered order, ∃ s ∈ vec ++ bm,
      e.id = s.id ∧ e.content = s.content ∧
      e.score = specRRFScore (effectiveK k) vec bm (rrfKey s)) ∧
    ((reciprocalRankFusionOrdered order).map entryKey).Nodup ∧
    (∀ key, key ∈ (reciprocalRankFusionOrdered order).map entryKey ↔
      key ∈ (vec ++ bm).map rrfKey) ∧
    hybridSearchOrdered topN order =
      ((reciprocalRankFusionOrdered order).take topN).map
        (fun r => ⟨r.id, r.content, r.score⟩) ∧
    (hybridSearchOrdered topN order).length =
      min topN (((vec ++ bm).map rrfKey).dedup.length) := by
  obtain ⟨hnd, hmem, hent⟩ := rrfMap_spec vec bm k
  haveI : IsTotal RRFResult (fun a b => b.score ≤ a.score) :=
    ⟨fun a b => le_total b.score a.score⟩
  haveI : IsTrans RRFResult (fun a b => b.score ≤ a.score) :=
    ⟨fun _ _ _ hab hbc => le_trans hbc hab⟩
  have hsortperm : (reciprocalRankFusionOrdered order).Perm (order.map Prod.snd) :=
    List.perm_insertionSort _ _
  have hfperm : (reciprocalRankFusionOrdered order).Perm
      ((rrfMap vec bm k).map Prod.snd) :=
    hsortperm.trans (hperm.map _)
  have h1 : ((rrfMap vec bm k).map Prod.snd).map entryKey =
      (rrfMap vec bm k).map Prod.fst := by
    rw [List.map_map]
    exact List.map_congr_left (fun p hp => ((hent p hp).1).symm)
  have hkeysperm : ((reciprocalRankFusionOrdered order).map entryKey).Perm
      ((rrfMap vec bm k).map Prod.fst) := by
    have h2 := hfperm.map entryKey
    rwa [h1] at h2
  have hkd : ((rrfMap vec bm k).map Prod.fst).Perm
      (((vec ++ bm).map rrfKey).dedup) := by
    refine List.perm_of_nodup_nodup_toFinset_eq hnd (List.nodup_dedup _) ?_
    ext a
    simp only [List.mem_toFinset, List.mem_dedup]
    exact hmem a
  refine ⟨?_, ?_, ?_, ?_, rfl, ?_⟩
  · exact List.sorted_insertionSort _ _
  · intro e he
    have he2 : e ∈ (rrfMap vec bm k).map Prod.snd := hfperm.subset he
    obtain ⟨p, hp, rfl⟩ := List.mem_map.mp he2
    obtain ⟨hk, ⟨s, hsmem, hsk, hsid, hsc⟩, hsscore⟩ := hent p hp
    exact ⟨s, hsmem, hsid, hsc, by rw [hsscore, hsk]⟩
  · exact hkeysperm.nodup_iff.mpr hnd
  · intro key
    rw [hkeysperm.mem_iff]
    exact hmem key
  · show (((reciprocalRankFusionOrdered order).take topN).map
      (fun r => (⟨r.id, r.content, r.score⟩ : SearchResult))).length = _
    rw [List.length_map, List.length_take, hfperm.length_eq, List.length_map]
    have hlen : (rrfMap vec bm k).length = ((vec ++ bm).map rrfKey).dedup.length := by
      rw [← hkd.length_eq, List.length_map]
    rw [hlen]

/-- Witness for C6 at a concrete pair of one-element result lists,
`k = 60`, `topN = 5`, and the first-insertion-order enumeration. -/
theorem rrf_hybrid_spec_witness :
    List.Pairwise (fun a b : RRFResult => b.score ≤ a.score)
      (reciprocalRankFusionOrdered (rrfMap [⟨"a", "A", 1⟩] [⟨"", "B", 1/2⟩] 60)) ∧
    (∀ e ∈ reciprocalRankFusionOrdered (rrfMap [⟨"a", "A", 1⟩] [⟨"", "B", 1/2⟩] 60),
      ∃ s ∈ [(⟨"a", "A", 1⟩ : SearchResult)] ++ [⟨"", "B", 1/2⟩],
      e.id = s.id ∧ e.content = s.content ∧
      e.score = specRRFScore (effectiveK 60) [⟨"a", "A", 1⟩] [⟨"", "B", 1/2⟩]
        (rrfKey s)) ∧
    ((reciprocalRankFusionOrdered
      (rrfMap [⟨"a", "A", 1⟩] [⟨"", "B", 1/2⟩] 60)).map entryKey).Nodup ∧
    (∀ key, key ∈ (reciprocalRankFusionOrdered
        (rrfMap [⟨"a", "A", 1⟩] [⟨"", "B", 1/2⟩] 60)).map entryKey ↔
      key ∈ ([(⟨"a", "A", 1⟩ : SearchResult)] ++
        [(⟨"", "B", 1/2⟩ : SearchResult)]).map rrfKey) ∧
    hybridSearchOrdered 5 (rrfMap [⟨"a", "A", 1⟩] [⟨"", "B", 1/2⟩] 60) =
      ((reciprocalRankFusionOrdered
        (rrfMap [⟨"a", "A", 1⟩] [⟨"", "B", 1/2⟩] 60)).take 5).map
        (fun r => ⟨r.id, r.content, r.score⟩) ∧
    (hybridSearchOrdered 5 (rrfMap [⟨"a", "A", 1⟩] [⟨"", "B", 1/2⟩] 60)).length =
      min 5 ((([(⟨"a", "A", 1⟩ : SearchResult)] ++
        [(⟨"", "B", 1/2⟩ : SearchResult)]).map rrfKey).dedup.length) :=
  rrf_hybrid_spec [⟨"a", "A", 1⟩] [⟨"", "B", 1/2⟩] 60 5
    (rrfMap [⟨"a", "A", 1⟩] [⟨"", "B", 1/2⟩] 60) (List.Perm.refl _)

/-- C9.  The pipeline lookup precedes the body decode in
`handlePipeline`: a POST naming an unknown pipeline is answered 404
`PIPELINE_NOT_FOUND` for every body — malformed (`decoded = none`), empty
query, valid query, streaming or not — and for every executor. -/
theorem handlePipeline_unknown_404 (name : String) (registry : List String)
    (decoded : Option QueryRequest)
    (exec : QueryRequest → Except String (String × ℕ))
    (hname : name ≠ "") (hreg : ¬ registry.contains name) :
    handlePipeline "POST" name registry decoded exec =
      HandlerResp.respError 404 "PIPELINE_NOT_FOUND" := by
  unfold handlePipeline
  rw [if_neg (by simp), if_neg hname, if_pos hreg]

/-- Witness for C9: the unknown name `"missing"` against a registry
knowing only `"docs"`, with a malformed body. -/
theorem handlePipeline_unknown_404_witness :
    handlePipeline "POST" "missing" ["docs"] none
      (fun _ => Except.ok ("", 0)) =
      HandlerResp.respError 404 "PIPELINE_NOT_FOUND" :=
  handlePipeline_unknown_404 "missing" ["docs"] none
    (fun _ => Except.ok ("", 0)) (by decide) (by decide)

theorem streamEvents_chunk_filter (chunks : List String) (t : String)
    (ht : t ≠ "chunk") :
    (chunks.map (fun c => (⟨"chunk", c, ""⟩ : StreamEvent))).filter
      (fun ev => decide (ev.type = t)) = [] := by
  induction chunks with
  | nil => rfl
  | cons c rest ih =>
    simp only [List.map_cons, List.filter_cons]
    rw [if_neg (by simpa using Ne.symm ht)]
    exact ih

/-- C8 (amended).  For every completed stream (chunk sequence and
optional provider error) and every marshalling: each wire frame is
`"data: "` ++ the JSON event ++ `"\n\n"`; exactly one `done` event is
emitted, and it is the final event — also on a provider error, when
exactly one `error` event is emitted, immediately before the final
`done`.  As stated the claim fails: on a provider error the stream is not
closed right after the error event — a `done` event follows it. -/
theorem sse_stream_spec (marshal : StreamEvent → String) (chunks : List String)
    (errOpt : Option String) :
    (∀ f ∈ streamWire marshal chunks errOpt, ∃ ev ∈ streamEvents chunks errOpt,
      f = "data: " ++ marshal ev ++ "\n\n") ∧
    ((streamEvents chunks errOpt).filter
      (fun ev => decide (ev.type = "done"))).length = 1 ∧
    (streamEvents chunks errOpt).getLast? = some ⟨"done", "", ""⟩ ∧
    (errOpt = none →
      (streamEvents chunks errOpt).filter
        (fun ev => decide (ev.type = "error")) = []) ∧
    (∀ e, errOpt = some e →
      streamEvents chunks errOpt =
        chunks.map (fun c => ⟨"chunk", c, ""⟩) ++
          [⟨"error", "", e⟩, ⟨"done", "", ""⟩] ∧
      (streamEvents chunks errOpt).filter
        (fun ev => decide (ev.type = "error")) = [⟨"error", "", e⟩]) := by
  refine ⟨?_, ?_, ?_, ?_, ?_⟩
  · intro f hf
    obtain ⟨ev, hev, rfl⟩ := List.mem_map.mp hf
    exact ⟨ev, hev, rfl⟩
  · unfold streamEvents
    rw [List.filter_append, List.filter_append,
      streamEvents_chunk_filter chunks "done" (by decide)]
    cases errOpt with
    | none => rfl
    | some e => rfl
  · unfold streamEvents
    exact List.getLast?_concat _
  · intro h
    subst h
    unfold streamEvents
    rw [List.filter_append, List.filter_append,
      streamEvents_chunk_filter chunks "error" (by decide)]
    rfl
  · intro e h
    subst h
    constructor
    · unfold streamEvents
      rw [List.append_assoc]
      rfl
    · unfold streamEvents
      rw [List.filter_append, List.filter_append,
        streamEvents_chunk_filter chunks "error" (by decide)]
      rfl

/-- Counterexample to C8 as stated: on a provider error (and no chunks),
the emitted events are the `error` event and then a `done` event — the
stream does not close right after the error event, and the final event is
`done`, not `error`. -/
theorem sse_stream_counterexample :
    streamEvents [] (some "provider failed") =
      [⟨"error", "", "provider failed"⟩, ⟨"done", "", ""⟩] ∧
    (streamEvents [] (some "provider failed")).getLast? ≠
      some ⟨"error", "", "provider failed"⟩ :=
  ⟨rfl, by decide⟩

/-- Witness for the amended C8 at one chunk and a provider error. -/
theorem sse_stream_spec_witness :
    (∀ f ∈ streamWire (fun ev => ev.type) ["hello"] (some "boom"),
      ∃ ev ∈ streamEvents ["hello"] (some "boom"),
      f = "data: " ++ (fun ev : StreamEvent => ev.type) ev ++ "\n\n") ∧
    ((streamEvents ["hello"] (some "boom")).filter
      (fun ev => decide (ev.type = "done"))).length = 1 ∧
    (streamEvents ["hello"] (some "boom")).getLast? = some ⟨"done", "", ""⟩ ∧
    (some "boom" = none →
      (streamEvents ["hello"] (some "boom")).filter
        (fun ev => decide (ev.type = "error")) = []) ∧
    (∀ e, some "boom" = some e →
      streamEvents ["hello"] (some "boom") =
        ["hello"].map (fun c => ⟨"chunk", c, ""⟩) ++
          [⟨"error", "", e⟩, ⟨"done", "", ""⟩] ∧
      (streamEvents ["hello"] (some "boom")).filter
        (fun ev => decide (ev.type = "error")) = [⟨"error", "", e⟩]) :=
  sse_stream_spec (fun ev => ev.type) ["hello"] (some "boom")

theorem buildCondition_invalid (c : FilterCondition) (k : ℕ)
    (h : invalidCondition c) : ∃ e, buildCondition c k = Except.error e := by
  unfold buildCondition
  cases hvo : ValidateOperator c.operator with
  | error e2 => exact ⟨e2, rfl⟩
  | ok u =>
    rcases h with ⟨e, he⟩ | ⟨e, he⟩
    · rw [hvo] at he
      cases he
    · rw [he]
      exact ⟨e, rfl⟩

theorem buildConditions_invalid (c : FilterCondition) (h : invalidCondition c) :
    ∀ (conds : List FilterCondition), c ∈ conds →
      ∀ k, ∃ e, buildConditions conds k = Except.error e := by
  intro conds
  induction conds with
  | nil =>
    intro hc
    simp at hc
  | cons c0 rest ih =>
    intro hc k
    rcases List.mem_cons.mp hc with h0 | h0
    · subst h0
      obtain ⟨e, he⟩ := buildCondition_invalid c k h
      exact ⟨e, by simp [buildConditions, he]⟩
    · cases hb : buildCondition c0 k with
      | error e => exact ⟨e, by simp [buildConditions, hb]⟩
      | ok t =>
        obtain ⟨clause, args, k2⟩ := t
        obtain ⟨e, he⟩ := ih h0 k2
        exact ⟨e, by simp [buildConditions, hb, he]⟩

theorem buildFilterFromStruct_invalid (f : Filter) (c : FilterCondition)
    (hc : c ∈ f.conditions) (h : invalidCondition c) (k : ℕ) :
    ∃ e, buildFilterFromStruct f k = Except.error e := by
  unfold buildFilterFromStruct
  rw [if_neg (fun hl => List.ne_nil_of_mem hc (List.length_eq_zero.mp hl))]
  by_cases hlogic : effectiveLogic f ≠ "AND" ∧ effectiveLogic f ≠ "OR"
  · rw [if_pos hlogic]
    exact ⟨_, rfl⟩
  · rw [if_neg hlogic]
    obtain ⟨e, he⟩ := buildConditions_invalid c h f.conditions hc k
    exact ⟨e, by simp [he]⟩

theorem buildFilterClauseRequest_invalid (f : Filter) (c : FilterCondition)
    (hc : c ∈ f.conditions) (h : invalidCondition c) (k : ℕ) :
    ∃ e, buildFilterClauseRequest (some f) k = Except.error e := by
  obtain ⟨e, he⟩ := buildFilterFromStruct_invalid f c hc h k
  exact ⟨"request filter error: " ++ e, by simp [buildFilterClauseRequest, he]⟩

theorem buildFilterClause_invalid (cf : Option ConfigFilter) (f : Filter)
    (c : FilterCondition) (hc : c ∈ f.conditions) (h : invalidCondition c)
    (k : ℕ) : ∃ e, buildFilterClause cf (some f) k = Except.error e := by
  unfold buildFilterClause
  cases hcfg : buildFilterClauseConfig cf k with
  | error e => exact ⟨e, rfl⟩
  | ok t =>
    obtain ⟨conds1, args1, k1⟩ := t
    obtain ⟨e, he⟩ := buildFilterClauseRequest_invalid f c hc h k1
    exact ⟨e, by simp [he]⟩

theorem vectorSearchQuery_invalid (fmtEmb : String) (pair : TableSource)
    (limit : Int) (f : Filter) (c : FilterCondition) (hc : c ∈ f.conditions)
    (h : invalidCondition c) :
    ∃ e, vectorSearchQuery fmtEmb pair limit (some f) = Except.error e := by
  obtain ⟨e, he⟩ := buildFilterClause_invalid pair.filter f c hc h 3
  exact ⟨"invalid filter: " ++ e, by simp [vectorSearchQuery, he]⟩

theorem pairResults_invalid (env : ExecEnv) (fmtEmb : String)
    (req : QueryRequest) (topN : ℤ) (i : ℕ) (pair : TableSource) (f : Filter)
    (c : FilterCondition) (hreq : req.filter = some f) (hc : c ∈ f.conditions)
    (h : invalidCondition c) :
    pairResults env fmtEmb req topN i pair = [] := by
  obtain ⟨e, he⟩ := vectorSearchQuery_invalid fmtEmb pair (topN * 2) f c hc h
  unfold pairResults vectorSearchExec
  rw [hreq, he]

theorem collectResults_invalid (env : ExecEnv) (fmtEmb : String)
    (req : QueryRequest) (topN : ℤ) (f : Filter) (c : FilterCondition)
    (hreq : req.filter = some f) (hc : c ∈ f.conditions)
    (h : invalidCondition c) :
    ∀ (pairs : List TableSource) (i : ℕ),
      collectResults env fmtEmb req topN i pairs = [] := by
  intro pairs
  induction pairs with
  | nil =>
    intro i
    rfl
  | cons p rest ih =>
    intro i
    show pairResults env fmtEmb req topN i p ++
      collectResults env fmtEmb req topN (i + 1) rest = []
    rw [pairResults_invalid env fmtEmb req topN i p f c hreq hc h, ih (i + 1)]
    rfl

theorem executeExec_invalid (env : ExecEnv) (pipe : Pipeline) (defTopN : ℤ)
    (tokenBudget : ℕ) (req : QueryRequest) (f : Filter) (c : FilterCondition)
    (hreq : req.filter = some f) (hc : c ∈ f.conditions)
    (h : invalidCondition c) :
    ∃ e, executeExec env pipe defTopN tokenBudget req = Except.error e := by
  unfold executeExec
  cases hemb : env.embed with
  | error e => exact ⟨"failed to generate embedding: " ++ e, rfl⟩
  | ok fmtEmb =>
    refine ⟨"no documents found for query", ?_⟩
    simp only []
    rw [collectResults_invalid env fmtEmb req _ f c hreq hc h pipe.columnPairs 0]
    rfl

/-- C4 (corrected).  A query whose structured request filter fails
validation (an operator outside the whitelist, or a value invalid for its
operator) is NOT answered 400 `INVALID_REQUEST`: the orchestrator warns
and continues past the per-pair filter failures (orchestrator.go lines
98-105), every column pair contributes nothing, `Execute` fails with
`no documents found for query` (or earlier with an embedding failure),
and `handlePipeline` maps any execution error to 500 `EXECUTION_ERROR` —
for every environment, pipeline, registry and request reaching the
execution step. -/
theorem invalid_filter_response (env : ExecEnv) (pipe : Pipeline)
    (defTopN : ℤ) (tokenBudget : ℕ) (name : String) (registry : List String)
    (req : QueryRequest) (f : Filter) (c : FilterCondition)
    (hname : name ≠ "") (hreg : registry.contains name = true)
    (hquery : req.query ≠ "") (hstream : req.stream = false)
    (hreq : req.filter = some f) (hc : c ∈ f.conditions)
    (h : invalidCondition c) :
    handlePipeline "POST" name registry (some req)
      (executeExec env pipe defTopN tokenBudget) =
      HandlerResp.respError 500 "EXECUTION_ERROR" := by
  obtain ⟨e, he⟩ := executeExec_invalid env pipe defTopN tokenBudget req f c
    hreq hc h
  unfold handlePipeline
  rw [if_neg (by simp), if_neg hname, if_neg (by simpa using hreg)]
  simp only []
  rw [if_neg hquery, hstream]
  rw [if_neg (by simp)]
  rw [he]

/-- Counterexample to C4 as stated: a POST to the known pipeline `"docs"`
whose request filter uses the unsupported operator `"~~"`, against a
healthy environment (embedding succeeds, database answers, completion
succeeds).  The response is 500 `EXECUTION_ERROR` — the per-pair filter
failures are warned and swallowed, leaving no documents — not the claimed
400 `INVALID_REQUEST`. -/
theorem invalid_filter_response_counterexample :
    handlePipeline "POST" "docs" ["docs"]
      (some ⟨"hi", false, 0, false, [],
        some ⟨[⟨"product", "~~", gStr "pgAdmin"⟩], ""⟩⟩)
      (executeExec
        ⟨Except.ok "[0.1]", fun _ => [], fun _ => Except.ok [],
         fun _ => Except.ok ("answer", 1)⟩
        ⟨"docs", "", [⟨"documents", "content", "embedding", "id", none⟩]⟩
        5 1000) =
      HandlerResp.respError 500 "EXECUTION_ERROR" ∧
    HandlerResp.respError 500 "EXECUTION_ERROR" ≠
      HandlerResp.respError 400 "INVALID_REQUEST" :=
  ⟨rfl, by decide⟩

/-- Witness for the corrected C4 at a second concrete instance: pipeline
`"kb"`, an `IN` condition with an empty list value (invalid value), one
column pair, and a failing completion oracle that is never reached. -/
theorem invalid_filter_response_witness :
    handlePipeline "POST" "kb" ["kb", "docs"]
      (some ⟨"what is pgEdge", false, 3, true, [⟨"user", "hello"⟩],
        some ⟨[⟨"version", "IN", gList []⟩], "OR"⟩⟩)
      (executeExec
        ⟨Except.ok "[0.2,0.3]", fun _ => [⟨"1", "doc", 1⟩],
         fun _ => Except.error ("db down"),
         fun _ => Except.error ("llm down")⟩
        ⟨"kb", "custom prompt", [⟨"articles", "body", "emb", "id", none⟩]⟩
        4 2000) =
      HandlerResp.respError 500 "EXECUTION_ERROR" :=
  invalid_filter_response _ _ 4 2000 "kb" ["kb", "docs"]
    ⟨"what is pgEdge", false, 3, true, [⟨"user", "hello"⟩],
      some ⟨[⟨"version", "IN", gList []⟩], "OR"⟩⟩
    ⟨[⟨"version", "IN", gList []⟩], "OR"⟩ ⟨"version", "IN", gList []⟩
    (by decide) (by decide) (by decide) rfl rfl (List.mem_singleton.mpr rfl)
    (Or.inr ⟨"IN operator requires non-empty array", by rfl⟩)
